import Mathlib

/-! PC_Lab01: parallel array reduction.

A shallow embedding of the four C programs of the laboratory
(`part1_array_sum.c`, `part2_uneven_workload.c`, `part3_even_counting.c`,
`part4_performance_analysis.c`) and the properties proved about them.

Conventions of the embedding.

* A C `int` array is a `List Int`; `array[i]` is `array.getD i 0`.
* `int` and `long long` arithmetic is arithmetic on `Int` followed by an
  explicit two's-complement wrap (`wrap32`, `wrap64`).
* An OpenMP work-sharing loop is described by the list of index lists that
  the workers of the team execute (`assign`): entry `w` is the sequence of
  iterations run by worker `w`, in the order it runs them.
* A `reduction(+:x)` clause gives every worker a private copy initialised
  to `0`; the private copies are added to the original variable at the end.
* A `critical` section is executed atomically; a run of a parallel region
  is a sequence of atomic steps, each taken by one worker.
* Wall-clock differences are rationals (every finite `double` is one).
* `printf` calls are recorded as the format string with its arguments.
-/

namespace PCLab01

/-! ## Machine integers -/

/-- Value of `x` after reduction to a signed 32-bit `int`. -/
def wrap32 (x : Int) : Int := (x + 2147483648) % 4294967296 - 2147483648

/-- Value of `x` after reduction to a signed 64-bit `long long`. -/
def wrap64 (x : Int) : Int :=
  (x + 9223372036854775808) % 18446744073709551616 - 9223372036854775808

/-- Largest `long long`. -/
def LLONG_MAX : Int := 9223372036854775807

/-- Addition of two `int` values. -/
def add32 (a b : Int) : Int := wrap32 (a + b)

/-- Addition of two `long long` values. -/
def add64 (a b : Int) : Int := wrap64 (a + b)

/-! ## The loop bodies of part1, part3 and part4 -/

/-- The loop `for (...) sum += array[i];` of part1 and part4, run over the
iterations `idxs` with the `long long` accumulator starting at `acc`. -/
def sum_loop (array : List Int) (idxs : List Nat) (acc : Int) : Int :=
  idxs.foldl (fun s i => add64 s (array.getD i 0)) acc

/-- The loop `for (...) if (array[i] % 2 == 0) count++;` of part3, run over
the iterations `idxs` with the `int` counter starting at `acc`. -/
def count_loop (array : List Int) (idxs : List Nat) (acc : Int) : Int :=
  idxs.foldl (fun c i => if (array.getD i 0).tmod 2 = 0 then add32 c 1 else c) acc

/-- The sequential version of part1: `sequential_sum` after the loop over
`0 .. ARRAY_SIZE-1`. The same loop is the body of a pass of part4's
`run_sequential`. -/
def sequential_sum (array : List Int) : Int :=
  sum_loop array (List.range array.length) 0

/-- The sequential version of part3: `sequential_count` after the loop. -/
def sequential_count (array : List Int) : Int :=
  count_loop array (List.range array.length) 0

/-- The loop `#pragma omp parallel for reduction(+:sum)` of part1 (and the
`omp for reduction(+:sum)` of part4's `run_parallel`): every worker folds its
iterations into a private accumulator that starts at `0`, and the private
accumulators are added to the original value `orig` of the variable. -/
def reduction_sum (array : List Int) (assign : List (List Nat)) (orig : Int) : Int :=
  assign.foldl (fun g idxs => add64 g (sum_loop array idxs 0)) orig

/-- The loop `#pragma omp parallel for reduction(+:parallel_count_reduction)`
of part3. -/
def reduction_count (array : List Int) (assign : List (List Nat)) (orig : Int) : Int :=
  assign.foldl (fun g idxs => add32 g (count_loop array idxs 0)) orig

/-- An assignment of the iterations `0 .. n-1` to workers: every index is
run exactly once, by exactly one worker. -/
def Covers (assign : List (List Nat)) (n : Nat) : Prop :=
  List.Perm assign.flatten (List.range n)

/-- Contribution of iteration `i` to the even count. -/
def evenInd (array : List Int) (i : Nat) : Int :=
  if (array.getD i 0).tmod 2 = 0 then 1 else 0

/-! ## part4: timed trials -/

/-- The initial value of `best`, `1e100`: the exact value of that `double`. -/
def BEST_INIT : ℚ :=
  10000000000000000159028911097599180468360808563945281389781327557747838772170381060813469985856815104

/-- Local variables of the trial loop of `run_sequential`. `trial_sums`
records the value `sum` has when the timed pass of each trial ends (oldest
first); it is an observation of the loop, not a variable of the program. -/
structure SeqLoop where
  sum : Int
  best : ℚ
  trial_sums : List Int

/-- One iteration of `for (int t = 0; t < TRIALS; ++t)` in `run_sequential`;
`dt` is the measured `t1 - t0`. -/
def seq_trial (g_array : List Int) (st : SeqLoop) (dt : ℚ) : SeqLoop :=
  let sum := sum_loop g_array (List.range g_array.length) st.sum
  { sum := 0
    best := if dt < st.best then dt else st.best
    trial_sums := st.trial_sums ++ [sum] }

/-- What `run_sequential` hands back: the returned `best`, the value stored
through `sum_out`, and the sums observed inside the timed trials. -/
structure SeqRun where
  best : ℚ
  sum_out : Int
  trial_sums : List Int

/-- `run_sequential`, with `elapsed` the measured time of each of the
`TRIALS` trials (`TRIALS = elapsed.length`). -/
def run_sequential (g_array : List Int) (elapsed : List ℚ) : SeqRun :=
  let st := elapsed.foldl (seq_trial g_array) { sum := 0, best := BEST_INIT, trial_sums := [] }
  { best := st.best
    sum_out := sum_loop g_array (List.range g_array.length) st.sum
    trial_sums := st.trial_sums }

/-- What the environment decides in one trial of `run_parallel`: the team
with the iterations each worker runs, and the measured `t1 - t0`. -/
structure ParTrial where
  assign : List (List Nat)
  elapsed : ℚ

/-- Local variables of the trial loop of `run_parallel`. -/
structure ParLoop where
  sum : Int
  actual_threads : Int
  best : ℚ

/-- One iteration of `for (int t = 0; t < TRIALS; ++t)` in `run_parallel`:
`sum = 0`, then the parallel region with its reduction, then the update of
`best`. `omp_get_num_threads()` is the size of the team. -/
def par_trial (g_array : List Int) (st : ParLoop) (tr : ParTrial) : ParLoop :=
  { sum := reduction_sum g_array tr.assign 0
    actual_threads := tr.assign.length
    best := if tr.elapsed < st.best then tr.elapsed else st.best }

/-- What `run_parallel` hands back: the returned `best` and the values
stored through `actual_threads_out` and `sum_out`. -/
structure ParRun where
  best : ℚ
  actual_threads_out : Int
  sum_out : Int

/-- `run_parallel`, with one `ParTrial` for each of the `TRIALS` trials. -/
def run_parallel (g_array : List Int) (trials : List ParTrial) : ParRun :=
  let st := trials.foldl (par_trial g_array) { sum := 0, actual_threads := 0, best := BEST_INIT }
  { best := st.best, actual_threads_out := st.actual_threads, sum_out := st.sum }

/-! ## Critical sections: runs as sequences of atomic steps -/

/-- State of a run of part3's loop with the critical section: the iterations
each worker has still to run, and the shared `parallel_count_critical`. -/
structure CritCountState where
  pending : List (List Nat)
  counter : Int
deriving DecidableEq

/-- Start of part3's critical-section loop for the assignment `assign`. -/
def crit_count_init (assign : List (List Nat)) : CritCountState :=
  { pending := assign, counter := 0 }

/-- Worker `w` runs its next iteration `i`: it tests `array[i] % 2 == 0` and,
if so, executes `parallel_count_critical++` inside the critical section.
The step is not enabled (`none`) when `w` has no iteration left. -/
def crit_count_step (array : List Int) (st : CritCountState) (w : Nat) :
    Option CritCountState :=
  match st.pending[w]? with
  | some (i :: rest) =>
    some { pending := st.pending.set w rest
           counter := if (array.getD i 0).tmod 2 = 0 then add32 st.counter 1 else st.counter }
  | _ => none

/-- The run in which the workers take their steps in the order `sched`. -/
def crit_count_run (array : List Int) : List Nat → CritCountState → Option CritCountState
  | [], st => some st
  | w :: sched, st =>
    match crit_count_step array st w with
    | some st1 => crit_count_run array sched st1
    | none => none

/-- Every worker has finished its iterations: the parallel region is over. -/
def crit_count_done (st : CritCountState) : Bool :=
  st.pending.all List.isEmpty

/-- A worker of part1's parallel region without reduction: the iterations it
has still to run, its `local_sum`, and whether it has already executed the
critical section. -/
structure SumWorker where
  pending : List Nat
  local_sum : Int
  merged : Bool
deriving DecidableEq

/-- State of a run of part1's parallel region without reduction: the workers
and the shared `parallel_sum_no_reduction`. -/
structure CritSumState where
  workers : List SumWorker
  shared : Int
deriving DecidableEq

/-- Start of part1's parallel region without reduction. -/
def crit_sum_init (assign : List (List Nat)) : CritSumState :=
  { workers := assign.map (fun idxs => { pending := idxs, local_sum := 0, merged := false })
    shared := 0 }

/-- Worker `w` takes its next step: `local_sum += array[i]` for its next
iteration, or, once its iterations are over, the critical section
`parallel_sum_no_reduction += local_sum`. Not enabled (`none`) when the
worker has left the region. -/
def crit_sum_step (array : List Int) (st : CritSumState) (w : Nat) : Option CritSumState :=
  match st.workers[w]? with
  | none => none
  | some wk =>
    match wk.pending with
    | i :: rest =>
      some { workers := st.workers.set w
               { pending := rest, local_sum := add64 wk.local_sum (array.getD i 0),
                 merged := wk.merged }
             shared := st.shared }
    | [] =>
      if wk.merged then none
      else
        some { workers := st.workers.set w
                 { pending := [], local_sum := wk.local_sum, merged := true }
               shared := add64 st.shared wk.local_sum }

/-- The run in which the workers take their steps in the order `sched`. -/
def crit_sum_run (array : List Int) : List Nat → CritSumState → Option CritSumState
  | [], st => some st
  | w :: sched, st =>
    match crit_sum_step array st w with
    | some st1 => crit_sum_run array sched st1
    | none => none

/-- Every worker has run its iterations and its critical section. -/
def crit_sum_done (st : CritSumState) : Bool :=
  st.workers.all (fun wk => wk.pending.isEmpty && wk.merged)

/-- Even elements among the iterations still to be run. -/
def count_left (array : List Int) (pending : List (List Nat)) : Int :=
  (pending.map (fun idxs => (idxs.map (evenInd array)).sum)).sum

/-- What a worker of part1 has still to contribute to the shared sum. -/
def worker_left (array : List Int) (wk : SumWorker) : Int :=
  if wk.merged then 0 else wk.local_sum + (wk.pending.map (fun i => array.getD i 0)).sum

/-- What the workers of part1 have still to contribute to the shared sum. -/
def sum_left (array : List Int) (workers : List SumWorker) : Int :=
  (workers.map (worker_left array)).sum

/-- Steps the workers of part3's critical-section loop have still to take. -/
def count_steps_left (pending : List (List Nat)) : Int :=
  (pending.map (fun idxs => (idxs.length : Int))).sum

/-- Steps a worker of part1 has still to take. -/
def worker_steps_left (wk : SumWorker) : Int :=
  (wk.pending.length : Int) + (if wk.merged then 0 else 1)

/-- Steps the workers of part1 have still to take. -/
def sum_steps_left (workers : List SumWorker) : Int :=
  (workers.map worker_steps_left).sum

/-! ## part1: the array `0, 1, ..., N-1` and overflow-checked accumulation -/

/-- Addition of two `long long` values that reports signed overflow: `none`
when the mathematical sum does not fit in 64 bits. -/
def add64_checked (a b : Int) : Option Int :=
  if -9223372036854775808 ≤ a + b ∧ a + b ≤ LLONG_MAX then some (a + b) else none

/-- The loop `for (...) sum += array[i];` with every addition checked for
wrap-around: `none` as soon as one addition overflows. -/
def sum_loop_checked (array : List Int) : List Nat → Int → Option Int
  | [], acc => some acc
  | i :: rest, acc =>
    match add64_checked acc (array.getD i 0) with
    | some s => sum_loop_checked array rest s
    | none => none

/-- The initialisation loop of part1, `array[i] = i` for `i` in `0 .. N-1`. -/
def part1_init_array (N : Nat) : List Int :=
  (List.range N).map (fun (i : Nat) => (i : Int))

/-- The `ARRAY_SIZE` of part1. -/
def PART1_ARRAY_SIZE : Nat := 100000000

/-- The running minimum kept in `best`: `if (t1 - t0 < best) best = t1 - t0;`
applied to the measured times `ts` in order, starting from `b`. -/
def best_fold (b : ℚ) (ts : List ℚ) : ℚ :=
  ts.foldl (fun best dt => if dt < best then dt else best) b

/-! ## Output of the programs -/

/-- An argument of a `printf` call. -/
inductive Arg where
  | int (v : Int)
  | real (v : ℚ)
  | str (s : String)
deriving DecidableEq

/-- A `printf` call: the format string and the arguments. -/
structure Printf where
  fmt : String
  args : List Arg
deriving DecidableEq

/-- What a stretch of `main` up to its `return` does: the `printf` calls in
order and the exit status. -/
structure Finish where
  output : List Printf
  status : Int

/-- The `// Verify correctness` block of part1's `main`. -/
def part1_verify (sequential_sum no_reduction with_reduction : Int) : List Printf :=
  if sequential_sum = no_reduction ∧ sequential_sum = with_reduction then
    [⟨"✓ All results are correct and consistent\n", []⟩]
  else
    [⟨"✗ Results are inconsistent!\n", []⟩,
     ⟨"Sequential: %lld, Parallel (no reduction): %lld, Parallel (with reduction): %lld\n",
      [.int sequential_sum, .int no_reduction, .int with_reduction]⟩]

/-- The end of part1's `main`, from `// Verify correctness` to `return 0`,
as a function of the three sums computed before. -/
def part1_main_tail (sequential_sum no_reduction with_reduction : Int) : Finish :=
  { output := part1_verify sequential_sum no_reduction with_reduction
    status := 0 }

/-- The `// Verify correctness` block of part3's `main`. -/
def part3_verify (sequential_count critical reduction : Int) : List Printf :=
  if sequential_count = critical ∧ sequential_count = reduction then
    [⟨"✓ All results are correct and consistent\n", []⟩]
  else
    [⟨"✗ Results are inconsistent!\n", []⟩,
     ⟨"Sequential: %d, Critical: %d, Reduction: %d\n",
      [.int sequential_count, .int critical, .int reduction]⟩]

/-- The `ANALYSIS EXPLANATION` block of part3's `main`. -/
def part3_explanation : List Printf :=
  [⟨"\n=== ANALYSIS EXPLANATION ===\n", []⟩,
   ⟨"Critical Section Approach:\n", []⟩,
   ⟨"- Forces serialization at the increment operation\n", []⟩,
   ⟨"- Creates contention as threads wait for the critical section\n", []⟩,
   ⟨"- Overhead increases with number of threads\n", []⟩,
   ⟨"- Good for complex operations that can\x27t be reduced\n", []⟩,
   ⟨"\n", []⟩,
   ⟨"Reduction Approach:\n", []⟩,
   ⟨"- Each thread maintains a private copy of the counter\n", []⟩,
   ⟨"- Combines results efficiently at the end\n", []⟩,
   ⟨"- Minimizes synchronization overhead\n", []⟩,
   ⟨"- Optimal for associative operations like counting\n", []⟩,
   ⟨"\n", []⟩]

/-- The race demonstration of part3's `main`: `unsafe_count` is the value the
unsynchronized loop left in the shared counter, `unsafe_time` the measured
`end_time - start_time`. -/
def part3_race_demo (sequential_count unsafe_count : Int) (unsafe_time : ℚ) : List Printf :=
  [⟨"=== RACE CONDITION DEMONSTRATION ===\n", []⟩,
   ⟨"Running unsafe parallel version (with race condition)...\n", []⟩,
   ⟨"Unsafe count: %d even numbers\n", [.int unsafe_count]⟩,
   ⟨"Unsafe time: %f seconds\n", [.real unsafe_time]⟩,
   ⟨"Expected count: %d even numbers\n", [.int sequential_count]⟩,
   if unsafe_count ≠ sequential_count then
     ⟨"✗ Race condition detected! Count is incorrect.\n", []⟩
   else
     ⟨"⚠ Race condition may not have manifested in this run.\n", []⟩]

/-- The end of part3's `main`, from `// Verify correctness` to `return 0`,
as a function of the counts computed before and of what the unsynchronized
loop is observed to produce. -/
def part3_main_tail (sequential_count critical reduction unsafe_count : Int)
    (unsafe_time : ℚ) : Finish :=
  { output := part3_verify sequential_count critical reduction ++ part3_explanation
      ++ part3_race_demo sequential_count unsafe_count unsafe_time
    status := 0 }

/-! ## part2: the scheduling drivers -/

/-- The `schedule(...)` clause a driver of part2 runs its loop with. -/
inductive Schedule where
  | static_default
  | static_chunk (chunk_size : Int)
  | dynamic (chunk_size : Int)
  | guided (chunk_size : Int)
deriving DecidableEq

/-- Whether OpenMP gives the clause a meaning: the chunk size of a
`schedule` clause must be positive. -/
def Schedule.conforming : Schedule → Bool
  | .static_default => true
  | .static_chunk chunk_size => decide (0 < chunk_size)
  | .dynamic chunk_size => decide (0 < chunk_size)
  | .guided chunk_size => decide (0 < chunk_size)

/-- What a driver of part2 does with a chunk size. `config_error` is the
rejection the specification asks for; `ran` is the loop executed under the
schedule clause `schedule`, followed by the `Execution time` line;
`undefined` is a loop entered under a clause OpenMP gives no meaning to:
what the program does from there, and whether it reaches its
`Execution time` line, is not determined. -/
inductive Outcome where
  | config_error
  | ran (schedule : Schedule) (report : Printf)
  | undefined (schedule : Schedule)
deriving DecidableEq

/-- A work-sharing loop under the clause `schedule`, followed by the
`printf` call `report`. -/
def omp_loop (schedule : Schedule) (report : Printf) : Outcome :=
  if schedule.conforming then .ran schedule report else .undefined schedule

/-- The driver `run_static`: with `chunk_size > 0` the loop runs under
`schedule(static, chunk_size)`, otherwise under `schedule(static)`; both
clauses are conforming. `elapsed` is the measured `end_time - start_time`. -/
def run_static (chunk_size : Int) (elapsed : ℚ) : Outcome :=
  .ran (if chunk_size > 0 then .static_chunk chunk_size else .static_default)
    ⟨"Execution time (static%s%d): %.6f s\n",
     [.str (if chunk_size > 0 then ", " else ""),
      .int (if chunk_size > 0 then chunk_size else 0), .real elapsed]⟩

/-- The driver `run_dynamic`: `chunk_size` goes unchecked into
`schedule(dynamic, chunk_size)`; the `Execution time` line follows the
loop. -/
def run_dynamic (chunk_size : Int) (elapsed : ℚ) : Outcome :=
  omp_loop (.dynamic chunk_size)
    ⟨"Execution time (dynamic, %d): %.6f s\n", [.int chunk_size, .real elapsed]⟩

/-- The driver `run_guided`: `chunk_size` goes unchecked into
`schedule(guided, chunk_size)`; the `Execution time` line follows the
loop. -/
def run_guided (chunk_size : Int) (elapsed : ℚ) : Outcome :=
  omp_loop (.guided chunk_size)
    ⟨"Execution time (guided, %d): %.6f s\n", [.int chunk_size, .real elapsed]⟩

/-! ## part4: the expected sum -/

/-- The function `contains` of part4: `1` when one of `arr[0] .. arr[n-1]`
equals `v`, `0` otherwise. -/
def contains (arr : List Int) (n : Nat) (v : Int) : Int :=
  if (List.range n).any (fun i => arr.getD i 0 == v) then 1 else 0

/-- The array `tests` of `main` with the number `nt` of slots filled. -/
structure TestSet where
  tests : List Int
  nt : Nat

/-- The statement `tests[nt++] = v`; `none` when the slot `nt` lies outside
the array. -/
def push_test (st : TestSet) (v : Int) : Option TestSet :=
  if st.nt < st.tests.length then
    some { tests := st.tests.set st.nt v, nt := st.nt + 1 }
  else none

/-- The array `candidates` of `main`. -/
def candidates : List Int := [1, 2, 4, 8, 16, 32]

/-- One iteration of the loop over `candidates`. -/
def add_candidate (max_threads : Int) (acc : Option TestSet) (c : Int) : Option TestSet :=
  match acc with
  | none => none
  | some st =>
    if c ≤ max_threads ∧ contains st.tests st.nt c = 0 then push_test st c else some st

/-- The construction of the test set in part4's `main`: `slots` is the
content of the uninitialised array `tests`, `max_threads` the value of
`MAX_THREADS_INIT`. -/
def build_tests (slots : List Int) (max_threads : Int) : Option TestSet :=
  match candidates.foldl (add_candidate max_threads) (some { tests := slots, nt := 0 }) with
  | none => none
  | some st =>
    if contains st.tests st.nt max_threads = 0 then push_test st max_threads else some st

/-- The filled part of `tests`: what the loops `for (i = 0; i < nt; ++i)`
of `main` read. -/
def TestSet.filled (st : TestSet) : List Int :=
  st.tests.take st.nt

/-! ## part2: the amount of work of an iteration -/

/-- Rounding of a rational to the nearest integer, ties to the even one. -/
def round_half_even (y : ℚ) : Int :=
  let f := ⌊y⌋
  if y - f < 1 / 2 then f
  else if 1 / 2 < y - f then f + 1
  else if f % 2 = 0 then f else f + 1

/-- The `double` (binary64) nearest to `x`, ties to even: 53 significant
bits, smallest exponent `-1022`. Magnitudes at which binary64 overflows to
infinity are not modelled; no value formed from an `int` below reaches them. -/
def round_double (x : ℚ) : ℚ :=
  if x = 0 then 0
  else
    let e := max (Int.log 2 |x|) (-1022)
    round_half_even (x / 2 ^ (e - 52)) * 2 ^ (e - 52)

/-- Product of two `double` values. -/
def double_mul (a b : ℚ) : ℚ := round_double (a * b)

/-- Quotient of two `double` values. -/
def double_div (a b : ℚ) : ℚ := round_double (a / b)

/-- Conversion of an `int` to `double`. -/
def int_to_double (i : Int) : ℚ := round_double i

/-- The cast `(int)d` of a `double`: truncation toward zero, `none` when the
truncated value is not an `int`. -/
def double_to_int (d : ℚ) : Option Int :=
  let t := if 0 ≤ d then ⌊d⌋ else ⌈d⌉
  if -2147483648 ≤ t ∧ t ≤ 2147483647 then some t else none

/-- Addition of two `int` values that reports signed overflow. -/
def add32_checked (a b : Int) : Option Int :=
  if -2147483648 ≤ a + b ∧ a + b ≤ 2147483647 then some (a + b) else none

/-- The default `N` of part2. -/
def PART2_N : Nat := 5000

/-- The constant `BASE_WORK` of part2. -/
def BASE_WORK : Int := 40

/-- The constant `WORK_DIVISOR` of part2. -/
def WORK_DIVISOR : Int := 2500

/-- The local `work_amount` of `simulate_work`:
`BASE_WORK + (int)((1.0 * iteration * iteration) / WORK_DIVISOR)`, the
product and the quotient in `double`, the cast and the sum in `int`; `none`
when the cast or the sum leaves the `int` range. -/
def work_amount (iteration : Int) : Option Int :=
  match double_to_int
      (double_div (double_mul (double_mul 1 (int_to_double iteration)) (int_to_double iteration))
        (int_to_double WORK_DIVISOR)) with
  | some t => add32_checked BASE_WORK t
  | none => none

/-- How many times `simulate_work` runs the body of
`for (int k = 0; k < work_amount; ++k)`. -/
def simulate_work_steps (iteration : Int) : Option Nat :=
  (work_amount iteration).map Int.toNat

/-! ## Theorems -/

/-! ### Wrap-around arithmetic -/

theorem wrap64_add_left (a b : Int) : wrap64 (wrap64 a + b) = wrap64 (a + b) := by
  unfold wrap64; omega

theorem wrap64_add_right (a b : Int) : wrap64 (a + wrap64 b) = wrap64 (a + b) := by
  unfold wrap64; omega

theorem wrap64_idem (a : Int) : wrap64 (wrap64 a) = wrap64 a := by
  unfold wrap64; omega

theorem wrap64_of_range (a : Int) (h1 : -9223372036854775808 ≤ a) (h2 : a ≤ LLONG_MAX) :
    wrap64 a = a := by
  unfold LLONG_MAX at h2; unfold wrap64; omega

theorem wrap32_add_left (a b : Int) : wrap32 (wrap32 a + b) = wrap32 (a + b) := by
  unfold wrap32; omega

theorem wrap32_add_right (a b : Int) : wrap32 (a + wrap32 b) = wrap32 (a + b) := by
  unfold wrap32; omega

theorem wrap32_idem (a : Int) : wrap32 (wrap32 a) = wrap32 a := by
  unfold wrap32; omega

/-! ### The loops compute the wrapped mathematical sum -/

theorem sum_loop_wrap (array : List Int) (idxs : List Nat) (a : Int) :
    sum_loop array idxs (wrap64 a) = wrap64 (a + (idxs.map (fun i => array.getD i 0)).sum) := by
  induction idxs generalizing a with
  | nil => simp [sum_loop]
  | cons i rest ih =>
    have step : sum_loop array (i :: rest) (wrap64 a)
        = sum_loop array rest (wrap64 (a + array.getD i 0)) := by
      simp [sum_loop, add64, wrap64_add_left]
    rw [step, ih]
    simp [add_assoc]

theorem count_loop_wrap (array : List Int) (idxs : List Nat) (a : Int) :
    count_loop array idxs (wrap32 a) = wrap32 (a + (idxs.map (evenInd array)).sum) := by
  induction idxs generalizing a with
  | nil => simp [count_loop]
  | cons i rest ih =>
    have step : count_loop array (i :: rest) (wrap32 a)
        = count_loop array rest (wrap32 (a + evenInd array i)) := by
      unfold count_loop evenInd
      rw [List.foldl_cons]
      by_cases h : (array.getD i 0).tmod 2 = 0
      · rw [if_pos h, if_pos h, add32, wrap32_add_left]
      · rw [if_neg h, if_neg h, add_zero]
    rw [step, ih]
    simp [add_assoc]

theorem sum_loop_zero (array : List Int) (idxs : List Nat) :
    sum_loop array idxs 0 = wrap64 ((idxs.map (fun i => array.getD i 0)).sum) := by
  have h := sum_loop_wrap array idxs 0
  simpa [wrap64] using h

theorem count_loop_zero (array : List Int) (idxs : List Nat) :
    count_loop array idxs 0 = wrap32 ((idxs.map (evenInd array)).sum) := by
  have h := count_loop_wrap array idxs 0
  simpa [wrap32] using h

theorem reduction_sum_wrap (array : List Int) (assign : List (List Nat)) (a : Int) :
    reduction_sum array assign (wrap64 a)
      = wrap64 (a + (assign.flatten.map (fun i => array.getD i 0)).sum) := by
  induction assign generalizing a with
  | nil => simp [reduction_sum]
  | cons idxs rest ih =>
    have step : reduction_sum array (idxs :: rest) (wrap64 a)
        = reduction_sum array rest
            (wrap64 (a + (idxs.map (fun i => array.getD i 0)).sum)) := by
      simp [reduction_sum, add64, sum_loop_zero, wrap64_add_left, wrap64_add_right]
    rw [step, ih]
    simp [add_assoc]

theorem reduction_count_wrap (array : List Int) (assign : List (List Nat)) (a : Int) :
    reduction_count array assign (wrap32 a)
      = wrap32 (a + (assign.flatten.map (evenInd array)).sum) := by
  induction assign generalizing a with
  | nil => simp [reduction_count]
  | cons idxs rest ih =>
    have step : reduction_count array (idxs :: rest) (wrap32 a)
        = reduction_count array rest (wrap32 (a + (idxs.map (evenInd array)).sum)) := by
      simp [reduction_count, add32, count_loop_zero, wrap32_add_left, wrap32_add_right]
    rw [step, ih]
    simp [add_assoc]

theorem reduction_sum_zero (array : List Int) (assign : List (List Nat)) :
    reduction_sum array assign 0
      = wrap64 ((assign.flatten.map (fun i => array.getD i 0)).sum) := by
  have h := reduction_sum_wrap array assign 0
  simpa [wrap64] using h

theorem reduction_count_zero (array : List Int) (assign : List (List Nat)) :
    reduction_count array assign 0 = wrap32 ((assign.flatten.map (evenInd array)).sum) := by
  have h := reduction_count_wrap array assign 0
  simpa [wrap32] using h

theorem reduction_sum_eq_sequential (array : List Int) (assign : List (List Nat))
    (h : Covers assign array.length) :
    reduction_sum array assign 0 = sequential_sum array := by
  rw [reduction_sum_zero, sequential_sum, sum_loop_zero]
  exact congrArg wrap64 (List.Perm.sum_eq (List.Perm.map _ h))

theorem reduction_count_eq_sequential (array : List Int) (assign : List (List Nat))
    (h : Covers assign array.length) :
    reduction_count array assign 0 = sequential_count array := by
  rw [reduction_count_zero, sequential_count, count_loop_zero]
  exact congrArg wrap32 (List.Perm.sum_eq (List.Perm.map _ h))

/-! ### C1: reduction equals the sequential fold -/

theorem par_loop_sum (g_array : List Int) (trials : List ParTrial) (st : ParLoop)
    (hc : ∀ tr ∈ trials, Covers tr.assign g_array.length)
    (hs : trials = [] → st.sum = sequential_sum g_array) :
    (trials.foldl (par_trial g_array) st).sum = sequential_sum g_array := by
  induction trials generalizing st with
  | nil => simpa using hs
  | cons tr rest ih =>
    rw [List.foldl_cons]
    apply ih
    · intro x hx
      exact hc x (List.mem_cons_of_mem _ hx)
    · intro _
      exact reduction_sum_eq_sequential g_array tr.assign (hc tr (List.mem_cons_self _ _))

/-- C1. For every int array and every assignment of the indices `[0,N)` to
workers that covers each index exactly once, the reduction (private
accumulators starting at 0, added together at the end) equals the plain
sequential fold: for the sum of part1, for the even count of part3, and for
the sum that part4's `run_parallel` reports after any positive number of
trials, each with its own covering assignment. -/
theorem C1_reduction_equals_sequential (array : List Int) (assign : List (List Nat))
    (h : Covers assign array.length) :
    reduction_sum array assign 0 = sequential_sum array ∧
    reduction_count array assign 0 = sequential_count array ∧
    ∀ trials : List ParTrial, trials ≠ [] →
      (∀ tr ∈ trials, Covers tr.assign array.length) →
      (run_parallel array trials).sum_out = sequential_sum array := by
  refine ⟨reduction_sum_eq_sequential array assign h,
    reduction_count_eq_sequential array assign h, ?_⟩
  intro trials hne hc
  exact par_loop_sum array trials _ hc (fun e => absurd e hne)

/-- C1 at the array `[3, 4, 7, 10]` split between two workers as
`[0, 2]` and `[3, 1]`. -/
theorem C1_reduction_equals_sequential_witness :
    Covers [[0, 2], [3, 1]] ([3, 4, 7, 10] : List Int).length ∧
    reduction_sum [3, 4, 7, 10] [[0, 2], [3, 1]] 0 = sequential_sum [3, 4, 7, 10] ∧
    reduction_count [3, 4, 7, 10] [[0, 2], [3, 1]] 0 = sequential_count [3, 4, 7, 10] :=
  have hc : Covers [[0, 2], [3, 1]] ([3, 4, 7, 10] : List Int).length := by
    unfold Covers; decide
  ⟨hc, (C1_reduction_equals_sequential [3, 4, 7, 10] [[0, 2], [3, 1]] hc).1,
    (C1_reduction_equals_sequential [3, 4, 7, 10] [[0, 2], [3, 1]] hc).2.1⟩

/-! ### C2: critical sections -/

theorem sum_map_set {α : Type} (g : α → Int) (l : List α) (w : Nat) (x y : α)
    (h : l[w]? = some y) : ((l.set w x).map g).sum + g y = (l.map g).sum + g x := by
  induction l generalizing w with
  | nil => simp at h
  | cons a t ih =>
    cases w with
    | zero =>
      simp at h
      subst h
      simp only [List.set_cons_zero, List.map_cons, List.sum_cons]
      omega
    | succ k =>
      simp at h
      have hk := ih k h
      simp only [List.set_cons_succ, List.map_cons, List.sum_cons]
      omega

theorem crit_count_step_inv (array : List Int) (st st1 : CritCountState) (w : Nat)
    (h : crit_count_step array st w = some st1) (hw : wrap32 st.counter = st.counter) :
    wrap32 st1.counter = st1.counter ∧
    wrap32 (st1.counter + count_left array st1.pending)
      = wrap32 (st.counter + count_left array st.pending) := by
  unfold crit_count_step at h
  split at h
  · rename_i i rest heq
    have hs := sum_map_set (fun idxs => (idxs.map (evenInd array)).sum) st.pending w rest
      (i :: rest) heq
    simp only [List.map_cons, List.sum_cons] at hs
    injection h with h
    subst h
    simp only [count_left]
    generalize (List.map (fun idxs => (List.map (evenInd array) idxs).sum)
      (st.pending.set w rest)).sum = L1 at hs ⊢
    generalize (List.map (fun idxs => (List.map (evenInd array) idxs).sum) st.pending).sum
      = L at hs ⊢
    generalize (List.map (evenInd array) rest).sum = R at hs
    unfold evenInd at hs
    by_cases he : (array.getD i 0).tmod 2 = 0
    · rw [if_pos he] at hs ⊢
      unfold add32 wrap32 at *
      omega
    · rw [if_neg he] at hs ⊢
      unfold wrap32 at *
      omega
  · exact absurd h (by simp)

theorem crit_count_run_inv (array : List Int) (sched : List Nat) (st st1 : CritCountState)
    (h : crit_count_run array sched st = some st1) (hw : wrap32 st.counter = st.counter) :
    wrap32 st1.counter = st1.counter ∧
    wrap32 (st1.counter + count_left array st1.pending)
      = wrap32 (st.counter + count_left array st.pending) := by
  induction sched generalizing st with
  | nil =>
    simp only [crit_count_run, Option.some.injEq] at h
    subst h
    exact ⟨hw, rfl⟩
  | cons w rest ih =>
    simp only [crit_count_run] at h
    split at h
    · rename_i st2 hstep
      have h1 := crit_count_step_inv array st st2 w hstep hw
      have h2 := ih st2 h h1.1
      exact ⟨h2.1, h2.2.trans h1.2⟩
    · exact absurd h (by simp)

theorem count_left_done (array : List Int) (pending : List (List Nat))
    (h : pending.all List.isEmpty = true) : count_left array pending = 0 := by
  induction pending with
  | nil => rfl
  | cons p t ih =>
    simp only [List.all_cons, Bool.and_eq_true, List.isEmpty_eq_true] at h
    have ht := ih h.2
    simp only [count_left] at ht ⊢
    simp [h.1, ht]

theorem count_left_flatten (array : List Int) (assign : List (List Nat)) :
    count_left array assign = (assign.flatten.map (evenInd array)).sum := by
  induction assign with
  | nil => rfl
  | cons p t ih =>
    simp only [count_left] at ih ⊢
    simp [ih]

theorem crit_count_final (array : List Int) (assign : List (List Nat))
    (hc : Covers assign array.length) (sched : List Nat) (st : CritCountState)
    (hrun : crit_count_run array sched (crit_count_init assign) = some st)
    (hdone : crit_count_done st = true) : st.counter = sequential_count array := by
  have h := crit_count_run_inv array sched _ st hrun (by simp [crit_count_init, wrap32])
  rw [count_left_done array st.pending hdone, add_zero, h.1] at h
  rw [h.2, sequential_count, count_loop_zero, count_left_flatten]
  simp only [crit_count_init, zero_add]
  exact congrArg wrap32 (List.Perm.sum_eq (List.Perm.map _ hc))

theorem exists_pending (pending : List (List Nat)) (h : pending.all List.isEmpty = false) :
    ∃ (w i : Nat) (rest : List Nat), pending[w]? = some (i :: rest) := by
  induction pending with
  | nil => simp at h
  | cons p t ih =>
    cases p with
    | cons i rest => exact ⟨0, i, rest, by simp⟩
    | nil =>
      have ht : t.all List.isEmpty = false := by simpa using h
      obtain ⟨w, i, rest, hw⟩ := ih ht
      exact ⟨w + 1, i, rest, by simpa using hw⟩

theorem count_steps_left_nonneg (pending : List (List Nat)) : 0 ≤ count_steps_left pending := by
  unfold count_steps_left
  apply List.sum_nonneg
  intro x hx
  simp only [List.mem_map] at hx
  obtain ⟨p, _, rfl⟩ := hx
  exact Int.ofNat_nonneg _

theorem crit_count_complete (array : List Int) (m : Nat) (st : CritCountState)
    (hm : count_steps_left st.pending ≤ m) :
    ∃ sched st1, crit_count_run array sched st = some st1 ∧ crit_count_done st1 = true := by
  induction m generalizing st with
  | zero =>
    by_cases hd : crit_count_done st = true
    · exact ⟨[], st, rfl, hd⟩
    · exfalso
      have hd1 : st.pending.all List.isEmpty = false := by simpa [crit_count_done] using hd
      obtain ⟨w, i, rest, hw⟩ := exists_pending st.pending hd1
      have hs := sum_map_set (fun idxs => (idxs.length : Int)) st.pending w rest (i :: rest) hw
      have hn := count_steps_left_nonneg (st.pending.set w rest)
      simp only [count_steps_left, List.length_cons, Nat.cast_add, Nat.cast_one] at *
      omega
  | succ k ih =>
    by_cases hd : crit_count_done st = true
    · exact ⟨[], st, rfl, hd⟩
    · have hd1 : st.pending.all List.isEmpty = false := by simpa [crit_count_done] using hd
      obtain ⟨w, i, rest, hw⟩ := exists_pending st.pending hd1
      have hs := sum_map_set (fun idxs => (idxs.length : Int)) st.pending w rest (i :: rest) hw
      have hstep : ∃ st2, crit_count_step array st w = some st2 ∧
          st2.pending = st.pending.set w rest := by
        simp [crit_count_step, hw]
      obtain ⟨st2, h2, hp⟩ := hstep
      have hle : count_steps_left st2.pending ≤ k := by
        rw [hp]
        simp only [count_steps_left, List.length_cons, Nat.cast_add, Nat.cast_one] at *
        omega
      obtain ⟨sched, st1, hrun, hdone⟩ := ih st2 hle
      exact ⟨w :: sched, st1, by simp [crit_count_run, h2, hrun], hdone⟩

theorem crit_sum_step_inv (array : List Int) (st st1 : CritSumState) (w : Nat)
    (h : crit_sum_step array st w = some st1) (hw : wrap64 st.shared = st.shared) :
    (wrap64 st1.shared = st1.shared ∧
    wrap64 (st1.shared + sum_left array st1.workers)
      = wrap64 (st.shared + sum_left array st.workers)) ∧
    sum_steps_left st1.workers + 1 = sum_steps_left st.workers := by
  unfold crit_sum_step at h
  split at h
  · exact absurd h (by simp)
  · rename_i wk heq
    split at h
    · rename_i i rest hp
      injection h with h
      subst h
      have hs := sum_map_set (worker_left array) st.workers w
        { pending := rest, local_sum := add64 wk.local_sum (array.getD i 0),
          merged := wk.merged } wk heq
      have ht := sum_map_set worker_steps_left st.workers w
        { pending := rest, local_sum := add64 wk.local_sum (array.getD i 0),
          merged := wk.merged } wk heq
      simp only [sum_left, sum_steps_left]
      generalize (List.map (worker_left array) (st.workers.set w _)).sum = L1 at hs ⊢
      generalize (List.map (worker_left array) st.workers).sum = L at hs ⊢
      generalize (List.map worker_steps_left (st.workers.set w _)).sum = T1 at ht ⊢
      generalize (List.map worker_steps_left st.workers).sum = T at ht ⊢
      simp only [worker_left, worker_steps_left, hp, List.map_cons, List.sum_cons,
        List.length_cons, Nat.cast_add, Nat.cast_one] at hs ht
      refine ⟨⟨hw, ?_⟩, by omega⟩
      generalize (List.map (fun i => array.getD i 0) rest).sum = R at hs
      by_cases hm : wk.merged = true
      · simp only [hm, if_true] at hs
        have he : L1 = L := by omega
        rw [he]
      · simp only [hm, Bool.false_eq_true, if_false] at hs
        unfold add64 wrap64 at hs
        unfold wrap64
        omega
    · rename_i hp
      split at h
      · exact absurd h (by simp)
      · rename_i hm
        injection h with h
        subst h
        have hs := sum_map_set (worker_left array) st.workers w
          { pending := [], local_sum := wk.local_sum, merged := true } wk heq
        have ht := sum_map_set worker_steps_left st.workers w
          { pending := [], local_sum := wk.local_sum, merged := true } wk heq
        simp only [sum_left, sum_steps_left]
        generalize (List.map (worker_left array) (st.workers.set w _)).sum = L1 at hs ⊢
        generalize (List.map (worker_left array) st.workers).sum = L at hs ⊢
        generalize (List.map worker_steps_left (st.workers.set w _)).sum = T1 at ht ⊢
        generalize (List.map worker_steps_left st.workers).sum = T at ht ⊢
        simp only [worker_left, worker_steps_left, hp, hm, List.map_nil, List.sum_nil,
          List.length_nil, if_true, Bool.false_eq_true, if_false] at hs ht
        refine ⟨?_, by omega⟩
        unfold add64 wrap64 at *
        omega

theorem crit_sum_run_inv (array : List Int) (sched : List Nat) (st st1 : CritSumState)
    (h : crit_sum_run array sched st = some st1) (hw : wrap64 st.shared = st.shared) :
    wrap64 st1.shared = st1.shared ∧
    wrap64 (st1.shared + sum_left array st1.workers)
      = wrap64 (st.shared + sum_left array st.workers) := by
  induction sched generalizing st with
  | nil =>
    simp only [crit_sum_run, Option.some.injEq] at h
    subst h
    exact ⟨hw, rfl⟩
  | cons w rest ih =>
    simp only [crit_sum_run] at h
    split at h
    · rename_i st2 hstep
      have h1 := (crit_sum_step_inv array st st2 w hstep hw).1
      have h2 := ih st2 h h1.1
      exact ⟨h2.1, h2.2.trans h1.2⟩
    · exact absurd h (by simp)

theorem sum_left_done (array : List Int) (workers : List SumWorker)
    (h : workers.all (fun wk => wk.pending.isEmpty && wk.merged) = true) :
    sum_left array workers = 0 := by
  induction workers with
  | nil => rfl
  | cons p t ih =>
    simp only [List.all_cons, Bool.and_eq_true, List.isEmpty_eq_true] at h
    have ht := ih (by simpa using h.2)
    simp only [sum_left] at ht ⊢
    simp [worker_left, h.1.2, ht]

theorem sum_left_init (array : List Int) (assign : List (List Nat)) :
    sum_left array (crit_sum_init assign).workers
      = (assign.flatten.map (fun i => array.getD i 0)).sum := by
  induction assign with
  | nil => rfl
  | cons p t ih =>
    simp only [sum_left, crit_sum_init, List.map_cons, List.sum_cons, List.flatten_cons,
      List.map_append, List.sum_append] at ih ⊢
    rw [ih]
    simp [worker_left]

theorem crit_sum_final (array : List Int) (assign : List (List Nat))
    (hc : Covers assign array.length) (sched : List Nat) (st : CritSumState)
    (hrun : crit_sum_run array sched (crit_sum_init assign) = some st)
    (hdone : crit_sum_done st = true) : st.shared = sequential_sum array := by
  have h := crit_sum_run_inv array sched _ st hrun (by simp [crit_sum_init, wrap64])
  rw [sum_left_done array st.workers hdone, add_zero, h.1] at h
  rw [h.2, sequential_sum, sum_loop_zero, sum_left_init]
  simp only [crit_sum_init, zero_add]
  exact congrArg wrap64 (List.Perm.sum_eq (List.Perm.map _ hc))

theorem exists_unfinished (workers : List SumWorker)
    (h : workers.all (fun wk => wk.pending.isEmpty && wk.merged) = false) :
    ∃ (w : Nat) (wk : SumWorker), workers[w]? = some wk ∧
      (wk.pending.isEmpty && wk.merged) = false := by
  induction workers with
  | nil => simp at h
  | cons p t ih =>
    by_cases hp : (p.pending.isEmpty && p.merged) = false
    · exact ⟨0, p, by simp, hp⟩
    · have ht : t.all (fun wk => wk.pending.isEmpty && wk.merged) = false := by
        simp only [Bool.not_eq_false] at hp
        simpa [List.all_cons, hp] using h
      obtain ⟨w, wk, hw, hwk⟩ := ih ht
      exact ⟨w + 1, wk, by simpa using hw, hwk⟩

theorem crit_sum_enabled (array : List Int) (st : CritSumState) (w : Nat) (wk : SumWorker)
    (hw : st.workers[w]? = some wk) (hwk : (wk.pending.isEmpty && wk.merged) = false) :
    ∃ st2, crit_sum_step array st w = some st2 := by
  unfold crit_sum_step
  rw [hw]
  obtain ⟨pending, ls, merged⟩ := wk
  cases pending with
  | cons i rest => exact ⟨_, rfl⟩
  | nil =>
    have hm : merged = false := by simpa using hwk
    subst hm
    exact ⟨_, rfl⟩

theorem sum_steps_left_nonneg (workers : List SumWorker) : 0 ≤ sum_steps_left workers := by
  unfold sum_steps_left
  apply List.sum_nonneg
  intro x hx
  simp only [List.mem_map] at hx
  obtain ⟨p, _, rfl⟩ := hx
  unfold worker_steps_left
  split <;> omega

theorem crit_sum_complete (array : List Int) (m : Nat) (st : CritSumState)
    (hw : wrap64 st.shared = st.shared) (hm : sum_steps_left st.workers ≤ m) :
    ∃ sched st1, crit_sum_run array sched st = some st1 ∧ crit_sum_done st1 = true := by
  induction m generalizing st with
  | zero =>
    by_cases hd : crit_sum_done st = true
    · exact ⟨[], st, rfl, hd⟩
    · exfalso
      have hd1 : st.workers.all (fun wk => wk.pending.isEmpty && wk.merged) = false := by
        simpa [crit_sum_done] using hd
      obtain ⟨w, wk, hwk, hun⟩ := exists_unfinished st.workers hd1
      obtain ⟨st2, h2⟩ := crit_sum_enabled array st w wk hwk hun
      have hs := (crit_sum_step_inv array st st2 w h2 hw).2
      have hn := sum_steps_left_nonneg st2.workers
      omega
  | succ k ih =>
    by_cases hd : crit_sum_done st = true
    · exact ⟨[], st, rfl, hd⟩
    · have hd1 : st.workers.all (fun wk => wk.pending.isEmpty && wk.merged) = false := by
        simpa [crit_sum_done] using hd
      obtain ⟨w, wk, hwk, hun⟩ := exists_unfinished st.workers hd1
      obtain ⟨st2, h2⟩ := crit_sum_enabled array st w wk hwk hun
      have hs := crit_sum_step_inv array st st2 w h2 hw
      obtain ⟨sched, st1, hrun, hdone⟩ := ih st2 hs.1.1 (by omega)
      exact ⟨w :: sched, st1, by simp [crit_sum_run, h2, hrun], hdone⟩

/-- C2. For every int array, every assignment of the iterations to workers
and every order in which the workers take their steps (so every order in
which they enter the critical section), the critical-section result equals
the sequential one: part3's shared counter ends equal to the sequential
count of even elements, part1's shared sum ends equal to the sequential sum.
Runs that complete exist for both. -/
theorem C2_critical_equals_sequential (array : List Int) (assign : List (List Nat))
    (h : Covers assign array.length) :
    (∀ sched st, crit_count_run array sched (crit_count_init assign) = some st →
      crit_count_done st = true → st.counter = sequential_count array) ∧
    (∃ sched st, crit_count_run array sched (crit_count_init assign) = some st ∧
      crit_count_done st = true) ∧
    (∀ sched st, crit_sum_run array sched (crit_sum_init assign) = some st →
      crit_sum_done st = true → st.shared = sequential_sum array) ∧
    (∃ sched st, crit_sum_run array sched (crit_sum_init assign) = some st ∧
      crit_sum_done st = true) := by
  refine ⟨fun sched st => crit_count_final array assign h sched st, ?_,
    fun sched st => crit_sum_final array assign h sched st, ?_⟩
  · exact crit_count_complete array (count_steps_left assign).toNat (crit_count_init assign)
      (by simp [crit_count_init, Int.toNat_of_nonneg (count_steps_left_nonneg assign)])
  · exact crit_sum_complete array (sum_steps_left (crit_sum_init assign).workers).toNat
      (crit_sum_init assign) (by simp [crit_sum_init, wrap64])
      (by simp [Int.toNat_of_nonneg (sum_steps_left_nonneg _)])

/-- C2 at the array `[3, 4, 7, 10]` split between two workers as `[0, 2]`
and `[3, 1]`, with the interleaved orders `0,1,1,0` and `0,1,1,1,0,0`. -/
theorem C2_critical_equals_sequential_witness :
    Covers [[0, 2], [3, 1]] ([3, 4, 7, 10] : List Int).length ∧
    (crit_count_run [3, 4, 7, 10] [0, 1, 1, 0] (crit_count_init [[0, 2], [3, 1]])).map
      (fun st => st.counter) = some (sequential_count [3, 4, 7, 10]) ∧
    (crit_sum_run [3, 4, 7, 10] [0, 1, 1, 1, 0, 0] (crit_sum_init [[0, 2], [3, 1]])).map
      (fun st => st.shared) = some (sequential_sum [3, 4, 7, 10]) :=
  have hc : Covers [[0, 2], [3, 1]] ([3, 4, 7, 10] : List Int).length := by
    unfold Covers; decide
  have hC := C2_critical_equals_sequential [3, 4, 7, 10] [[0, 2], [3, 1]] hc
  ⟨hc,
    by rw [← hC.1 [0, 1, 1, 0] { pending := [[], []], counter := 2 } (by decide) (by decide)]
       decide,
    by rw [← hC.2.2.1 [0, 1, 1, 1, 0, 0]
          { workers := [{ pending := [], local_sum := 10, merged := true },
                        { pending := [], local_sum := 14, merged := true }], shared := 24 }
          (by decide) (by decide)]
       decide⟩

/-! ### C3: the sequential sum of `0 .. N-1` -/

theorem sum_loop_checked_nonneg (array : List Int) (idxs : List Nat) (acc : Int)
    (hpos : ∀ i ∈ idxs, 0 ≤ array.getD i 0) (hacc : 0 ≤ acc)
    (hfit : acc + (idxs.map (fun i => array.getD i 0)).sum ≤ LLONG_MAX) :
    sum_loop_checked array idxs acc
      = some (acc + (idxs.map (fun i => array.getD i 0)).sum) := by
  induction idxs generalizing acc with
  | nil => simp [sum_loop_checked]
  | cons i rest ih =>
    have hi : 0 ≤ array.getD i 0 := hpos i (List.mem_cons_self _ _)
    have hrest : ∀ j ∈ rest, 0 ≤ array.getD j 0 :=
      fun j hj => hpos j (List.mem_cons_of_mem _ hj)
    have hsum : 0 ≤ (rest.map (fun i => array.getD i 0)).sum := by
      apply List.sum_nonneg
      intro x hx
      simp only [List.mem_map] at hx
      obtain ⟨j, hj, rfl⟩ := hx
      exact hrest j hj
    simp only [List.map_cons, List.sum_cons] at hfit ⊢
    have hstep : add64_checked acc (array.getD i 0) = some (acc + array.getD i 0) := by
      unfold add64_checked
      rw [if_pos]
      constructor <;> omega
    simp only [sum_loop_checked, hstep]
    rw [ih (acc + array.getD i 0) hrest (by omega) (by omega)]
    congr 1
    omega

theorem part1_init_array_get (N i : Nat) (h : i < N) : (part1_init_array N).getD i 0 = i := by
  simp [part1_init_array, List.getD, List.getElem?_map, List.getElem?_range h]

theorem part1_init_array_sum (N : Nat) :
    ((List.range N).map (fun i => (part1_init_array N).getD i 0)).sum
      = ((List.range N).map (fun (i : Nat) => (i : Int))).sum := by
  congr 1
  apply List.map_congr_left
  intro i hi
  exact part1_init_array_get N i (List.mem_range.mp hi)

theorem gauss_sum (N : Nat) :
    ((List.range N).map (fun (i : Nat) => (i : Int))).sum = (N : Int) * ((N : Int) - 1) / 2 := by
  have h2 : 2 * ((List.range N).map (fun (i : Nat) => (i : Int))).sum = (N : Int) * ((N : Int) - 1) := by
    induction N with
    | zero => simp
    | succ k ih =>
      rw [List.range_succ, List.map_append, List.sum_append]
      simp only [List.map_cons, List.map_nil, List.sum_cons, List.sum_nil, add_zero]
      push_cast
      linarith
  omega

theorem gauss_bound (N : Nat) (h : N ≤ PART1_ARRAY_SIZE) :
    0 ≤ (N : Int) * ((N : Int) - 1) / 2 ∧
    (N : Int) * ((N : Int) - 1) / 2 ≤ 4999999950000000 := by
  rw [← gauss_sum]
  have h2 : 2 * ((List.range N).map (fun (i : Nat) => (i : Int))).sum = (N : Int) * ((N : Int) - 1) := by
    have := gauss_sum N
    have hev : ((N : Int) * ((N : Int) - 1)) % 2 = 0 := by
      have : ((N : Int) * ((N : Int) - 1)) % 2 = (((N : Int) % 2) * (((N : Int) - 1) % 2)) % 2 :=
        Int.mul_emod _ _ _
      rcases Int.emod_two_eq_zero_or_one (N : Int) with h0 | h1
      · rw [this, h0]; simp
      · have : ((N : Int) - 1) % 2 = 0 := by omega
        rw [Int.mul_emod, this]; simp
    omega
  have hN : (N : Int) ≤ 100000000 := by
    unfold PART1_ARRAY_SIZE at h
    exact_mod_cast h
  have h0 : (0 : Int) ≤ N := Int.ofNat_nonneg N
  constructor
  · have : 0 ≤ (N : Int) * ((N : Int) - 1) := by
      rcases Nat.eq_zero_or_pos N with hz | hp
      · simp [hz]
      · have : (1 : Int) ≤ N := by exact_mod_cast hp
        nlinarith
    omega
  · have : (N : Int) * ((N : Int) - 1) ≤ 100000000 * 99999999 := by nlinarith
    omega

theorem part1_init_array_length (N : Nat) : (part1_init_array N).length = N := by
  simp [part1_init_array]

theorem part1_sequential_sum (N : Nat) (h : N ≤ PART1_ARRAY_SIZE) :
    sum_loop_checked (part1_init_array N) (List.range (part1_init_array N).length) 0
      = some ((N : Int) * ((N : Int) - 1) / 2) ∧
    sequential_sum (part1_init_array N) = (N : Int) * ((N : Int) - 1) / 2 := by
  have hb := gauss_bound N h
  have hs := part1_init_array_sum N
  rw [gauss_sum] at hs
  constructor
  · rw [part1_init_array_length]
    have hc := sum_loop_checked_nonneg (part1_init_array N) (List.range N) 0
      (by
        intro i hi
        rw [part1_init_array_get N i (List.mem_range.mp hi)]
        exact Int.ofNat_nonneg i)
      (le_refl 0)
      (by rw [hs, LLONG_MAX]; omega)
    rw [hc, hs, zero_add]
  · rw [sequential_sum, sum_loop_zero, part1_init_array_length, hs]
    exact wrap64_of_range _ (by omega) (by rw [LLONG_MAX]; omega)

/-- C3. For every `N` with `0 <= N <= 100000000`, the sequential sum loop of
part1 over the array initialised with `array[i] = i` yields exactly
`N*(N-1)/2`, and no addition into the `long long` accumulator wraps around
(the overflow-checked loop returns the same value); it yields `4950` for
`N = 100` and `4999999950000000` for the configured `ARRAY_SIZE`. -/
theorem C3_sequential_sum_identity (N : Nat) (h : N ≤ PART1_ARRAY_SIZE) :
    sum_loop_checked (part1_init_array N) (List.range (part1_init_array N).length) 0
      = some ((N : Int) * ((N : Int) - 1) / 2) ∧
    sequential_sum (part1_init_array N) = (N : Int) * ((N : Int) - 1) / 2 ∧
    (N = 100 → sequential_sum (part1_init_array N) = 4950) ∧
    (N = PART1_ARRAY_SIZE → sequential_sum (part1_init_array N) = 4999999950000000) := by
  have hm := part1_sequential_sum N h
  refine ⟨hm.1, hm.2, ?_, ?_⟩
  · intro hN
    rw [hm.2, hN]
    norm_num
  · intro hN
    rw [hm.2, hN, PART1_ARRAY_SIZE]
    norm_num

/-- C3 at `N = 100` and at `N = ARRAY_SIZE`. -/
theorem C3_sequential_sum_identity_witness :
    100 ≤ PART1_ARRAY_SIZE ∧
    sequential_sum (part1_init_array 100) = 4950 ∧
    sum_loop_checked (part1_init_array PART1_ARRAY_SIZE)
      (List.range (part1_init_array PART1_ARRAY_SIZE).length) 0 = some 4999999950000000 :=
  ⟨by decide,
    (C3_sequential_sum_identity 100 (by decide)).2.2.1 rfl,
    by
      have h := (C3_sequential_sum_identity PART1_ARRAY_SIZE (le_refl _)).1
      rw [h, PART1_ARRAY_SIZE]
      norm_num⟩

/-! ### C4: the reported sum does not depend on the number of trials -/

theorem seq_loop_sums (g_array : List Int) (elapsed : List ℚ) (st : SeqLoop)
    (h0 : st.sum = 0) :
    (elapsed.foldl (seq_trial g_array) st).sum = 0 ∧
    (elapsed.foldl (seq_trial g_array) st).trial_sums
      = st.trial_sums ++ List.replicate elapsed.length (sequential_sum g_array) := by
  induction elapsed generalizing st with
  | nil => simp [h0]
  | cons dt rest ih =>
    rw [List.foldl_cons]
    have h := ih (seq_trial g_array st dt) rfl
    refine ⟨h.1, ?_⟩
    rw [h.2]
    simp [seq_trial, h0, sequential_sum, List.replicate_succ]

theorem par_loop_last (g_array : List Int) (trials : List ParTrial) (tr : ParTrial)
    (st : ParLoop) :
    ((trials ++ [tr]).foldl (par_trial g_array) st).sum = reduction_sum g_array tr.assign 0 := by
  rw [List.foldl_append]
  rfl

/-- C4. For every array and every number of trials, the value `run_sequential`
stores through `sum_out` (from its untimed final pass) equals the sum
accumulated inside every timed trial, the first included, and is the plain
sequential sum; for `TRIALS >= 1` the value `run_parallel` stores through
`sum_out` is the reduction of one single trial (the last), the same as with
that trial alone: the reported sum never depends on the number of trials. -/
theorem C4_sum_independent_of_trials (g_array : List Int) (elapsed : List ℚ)
    (trials : List ParTrial) (h : trials ≠ []) :
    (run_sequential g_array elapsed).trial_sums
      = List.replicate elapsed.length (run_sequential g_array elapsed).sum_out ∧
    (run_sequential g_array elapsed).sum_out = sequential_sum g_array ∧
    (run_parallel g_array trials).sum_out
      = reduction_sum g_array (trials.getLast h).assign 0 ∧
    (run_parallel g_array trials).sum_out
      = (run_parallel g_array [trials.getLast h]).sum_out := by
  have hs := seq_loop_sums g_array elapsed { sum := 0, best := BEST_INIT, trial_sums := [] } rfl
  have hout : (run_sequential g_array elapsed).sum_out = sequential_sum g_array := by
    simp only [run_sequential, hs.1, sequential_sum]
  refine ⟨?_, hout, ?_, ?_⟩
  · rw [hout]
    simpa [run_sequential] using hs.2
  · have hl := par_loop_last g_array trials.dropLast (trials.getLast h)
      { sum := 0, actual_threads := 0, best := BEST_INIT }
    rw [List.dropLast_append_getLast h] at hl
    exact hl
  · have hl := par_loop_last g_array trials.dropLast (trials.getLast h)
      { sum := 0, actual_threads := 0, best := BEST_INIT }
    rw [List.dropLast_append_getLast h] at hl
    have h1 := par_loop_last g_array [] (trials.getLast h)
      { sum := 0, actual_threads := 0, best := BEST_INIT }
    simp only [run_parallel]
    rw [hl]
    exact h1.symm

/-- C4 at the array `[1, 2, 3]` with three sequential trials and two
parallel trials that use different teams. -/
theorem C4_sum_independent_of_trials_witness :
    (run_sequential [1, 2, 3] [5, 3, 4]).trial_sums = [6, 6, 6] ∧
    (run_sequential [1, 2, 3] [5, 3, 4]).sum_out = 6 ∧
    (run_parallel [1, 2, 3] [{ assign := [[0], [1, 2]], elapsed := 5 },
        { assign := [[0, 1, 2]], elapsed := 3 }]).sum_out
      = (run_parallel [1, 2, 3] [{ assign := [[0, 1, 2]], elapsed := 3 }]).sum_out :=
  ⟨by decide, by decide,
    (C4_sum_independent_of_trials [1, 2, 3] [5, 3, 4]
      [{ assign := [[0], [1, 2]], elapsed := 5 }, { assign := [[0, 1, 2]], elapsed := 3 }]
      (by simp)).2.2.2⟩

/-! ### C5: the returned time is the minimum of the trial times -/

theorem best_fold_le_init (b : ℚ) (ts : List ℚ) : best_fold b ts ≤ b := by
  induction ts generalizing b with
  | nil => exact le_refl b
  | cons t rest ih =>
    have h := ih (if t < b then t else b)
    simp only [best_fold, List.foldl_cons] at h ⊢
    by_cases hc : t < b
    · rw [if_pos hc] at h ⊢
      exact le_trans h (le_of_lt hc)
    · rw [if_neg hc] at h ⊢
      exact h

theorem best_fold_le_mem (b : ℚ) (ts : List ℚ) : ∀ t ∈ ts, best_fold b ts ≤ t := by
  induction ts generalizing b with
  | nil => intro t ht; simp at ht
  | cons t0 rest ih =>
    intro t ht
    have hinit := best_fold_le_init (if t0 < b then t0 else b) rest
    have hcons : best_fold b (t0 :: rest) = best_fold (if t0 < b then t0 else b) rest := rfl
    rw [hcons]
    rcases List.mem_cons.mp ht with h | h
    · subst h
      by_cases hc : t < b
      · rw [if_pos hc] at hinit ⊢
        exact hinit
      · rw [if_neg hc] at hinit ⊢
        exact le_trans hinit (not_lt.mp hc)
    · exact ih _ t h

theorem best_fold_mem (b : ℚ) (ts : List ℚ) : best_fold b ts = b ∨ best_fold b ts ∈ ts := by
  induction ts generalizing b with
  | nil => exact Or.inl rfl
  | cons t0 rest ih =>
    have hcons : best_fold b (t0 :: rest) = best_fold (if t0 < b then t0 else b) rest := rfl
    rw [hcons]
    rcases ih (if t0 < b then t0 else b) with h | h
    · rw [h]
      split
      · exact Or.inr (List.mem_cons_self _ _)
      · exact Or.inl rfl
    · exact Or.inr (List.mem_cons_of_mem _ h)

theorem best_fold_is_min (ts : List ℚ) (hne : ts ≠ []) (hlt : ∀ t ∈ ts, t < BEST_INIT) :
    best_fold BEST_INIT ts ∈ ts ∧ ∀ t ∈ ts, best_fold BEST_INIT ts ≤ t := by
  refine ⟨?_, best_fold_le_mem BEST_INIT ts⟩
  rcases best_fold_mem BEST_INIT ts with h | h
  · exfalso
    obtain ⟨t0, h0⟩ := List.exists_mem_of_ne_nil ts hne
    have h1 := best_fold_le_mem BEST_INIT ts t0 h0
    have h2 := hlt t0 h0
    rw [h] at h1
    exact absurd h2 (not_lt.mpr h1)
  · exact h

theorem seq_loop_best (g_array : List Int) (elapsed : List ℚ) (st : SeqLoop) :
    (elapsed.foldl (seq_trial g_array) st).best = best_fold st.best elapsed := by
  induction elapsed generalizing st with
  | nil => rfl
  | cons dt rest ih =>
    rw [List.foldl_cons, ih]
    rfl

theorem par_loop_best (g_array : List Int) (trials : List ParTrial) (st : ParLoop) :
    (trials.foldl (par_trial g_array) st).best
      = best_fold st.best (trials.map (fun tr => tr.elapsed)) := by
  induction trials generalizing st with
  | nil => rfl
  | cons tr rest ih =>
    rw [List.foldl_cons, ih]
    rfl

/-- C5. For every sequence of `TRIALS >= 1` elapsed trial times, each
smaller than the initial sentinel `1e100`, the time returned by
`run_sequential` and the time returned by `run_parallel` is the minimum of
the sequence: it is one of the trial times and it is less than or equal to
every trial time. -/
theorem C5_best_is_minimum (g_array : List Int) (elapsed : List ℚ) (trials : List ParTrial)
    (h1 : elapsed ≠ []) (h2 : trials ≠ [])
    (h3 : ∀ t ∈ elapsed, t < BEST_INIT) (h4 : ∀ tr ∈ trials, tr.elapsed < BEST_INIT) :
    ((run_sequential g_array elapsed).best ∈ elapsed ∧
      ∀ t ∈ elapsed, (run_sequential g_array elapsed).best ≤ t) ∧
    ((∃ tr ∈ trials, (run_parallel g_array trials).best = tr.elapsed) ∧
      ∀ tr ∈ trials, (run_parallel g_array trials).best ≤ tr.elapsed) := by
  constructor
  · have hb : (run_sequential g_array elapsed).best = best_fold BEST_INIT elapsed :=
      seq_loop_best g_array elapsed _
    rw [hb]
    exact best_fold_is_min elapsed h1 h3
  · have hb : (run_parallel g_array trials).best
        = best_fold BEST_INIT (trials.map (fun tr => tr.elapsed)) :=
      par_loop_best g_array trials _
    rw [hb]
    have hm := best_fold_is_min (trials.map (fun tr => tr.elapsed))
      (by simpa using h2)
      (by
        intro t ht
        simp only [List.mem_map] at ht
        obtain ⟨tr, htr, rfl⟩ := ht
        exact h4 tr htr)
    constructor
    · have hmem := hm.1
      simp only [List.mem_map] at hmem
      obtain ⟨tr, htr, he⟩ := hmem
      exact ⟨tr, htr, he.symm⟩
    · intro tr htr
      exact hm.2 tr.elapsed (List.mem_map.mpr ⟨tr, htr, rfl⟩)

/-- C5 at three sequential trials taking `5`, `3`, `4` and two parallel
trials taking `5` and `3`. -/
theorem C5_best_is_minimum_witness :
    (run_sequential [1, 2, 3] [5, 3, 4]).best ∈ ([5, 3, 4] : List ℚ) ∧
    (∀ t ∈ ([5, 3, 4] : List ℚ), (run_sequential [1, 2, 3] [5, 3, 4]).best ≤ t) ∧
    (run_sequential [1, 2, 3] [5, 3, 4]).best = 3 ∧
    (∀ tr ∈ [({ assign := [[0], [1, 2]], elapsed := 5 } : ParTrial),
        { assign := [[0, 1, 2]], elapsed := 3 }],
      (run_parallel [1, 2, 3] [{ assign := [[0], [1, 2]], elapsed := 5 },
        { assign := [[0, 1, 2]], elapsed := 3 }]).best ≤ tr.elapsed) ∧
    (run_parallel [1, 2, 3] [{ assign := [[0], [1, 2]], elapsed := 5 },
        { assign := [[0, 1, 2]], elapsed := 3 }]).best = 3 :=
  have hC := C5_best_is_minimum [1, 2, 3] [5, 3, 4]
    [{ assign := [[0], [1, 2]], elapsed := 5 }, { assign := [[0, 1, 2]], elapsed := 3 }]
    (by simp) (by simp) (by decide) (by decide)
  ⟨hC.1.1, hC.1.2, by decide, hC.2.2, by decide⟩

/-! ### C6 and C7: what a mismatch does to the run -/

/-- C6, counterexample. With a critical-section result different from the
sequential one (`0` against `1` in part1, `4` against `5` in part3) the run
still ends with exit status 0, and part3 goes on to the explanation and the
race demonstration. -/
theorem C6_mismatch_counterexample :
    ((1 : Int) ≠ 0 ∧ (part1_main_tail 1 0 1).status = 0) ∧
    ((5 : Int) ≠ 4 ∧ (part3_main_tail 5 4 5 5 0).status = 0 ∧
      (⟨"=== RACE CONDITION DEMONSTRATION ===\n", []⟩ : Printf)
        ∈ (part3_main_tail 5 4 5 5 0).output) := by
  refine ⟨⟨by decide, rfl⟩, by decide, rfl, ?_⟩
  decide

/-- C6, amended. In part1 and part3, whenever the result of a deterministic
combiner differs from the sequential result, the mismatch is reported by
the line `Results are inconsistent!` followed by the three values, the line
`All results are correct and consistent` is not printed, part3 continues
with the explanation and the race demonstration, and the run ends with exit
status 0. -/
theorem C6_mismatch_reported_not_fatal (s a b u : Int) (t : ℚ) (h : s ≠ a ∨ s ≠ b) :
    (part1_main_tail s a b).output
      = [⟨"✗ Results are inconsistent!\n", []⟩,
         ⟨"Sequential: %lld, Parallel (no reduction): %lld, Parallel (with reduction): %lld\n",
          [.int s, .int a, .int b]⟩] ∧
    (part1_main_tail s a b).status = 0 ∧
    (part3_main_tail s a b u t).output
      = [⟨"✗ Results are inconsistent!\n", []⟩,
         ⟨"Sequential: %d, Critical: %d, Reduction: %d\n", [.int s, .int a, .int b]⟩]
        ++ part3_explanation ++ part3_race_demo s u t ∧
    (⟨"✓ All results are correct and consistent\n", []⟩ : Printf)
      ∉ (part3_main_tail s a b u t).output ∧
    (part3_main_tail s a b u t).status = 0 := by
  have hn : ¬ (s = a ∧ s = b) := by
    intro hab
    rcases h with h | h
    · exact h hab.1
    · exact h hab.2
  have h3 : (part3_main_tail s a b u t).output
      = [⟨"✗ Results are inconsistent!\n", []⟩,
         ⟨"Sequential: %d, Critical: %d, Reduction: %d\n", [.int s, .int a, .int b]⟩]
        ++ part3_explanation ++ part3_race_demo s u t := by
    simp only [part3_main_tail, part3_verify, if_neg hn]
  refine ⟨?_, rfl, h3, ?_, rfl⟩
  · simp only [part1_main_tail, part1_verify, if_neg hn]
  · rw [h3]
    simp only [part3_explanation, part3_race_demo]
    split <;> simp

/-- C6 amended, at the counts `5`, `4`, `5`. -/
theorem C6_mismatch_reported_not_fatal_witness :
    ((5 : Int) ≠ 4 ∨ (5 : Int) ≠ 5) ∧ (part1_main_tail 5 4 5).status = 0 ∧
    (part3_main_tail 5 4 5 5 0).status = 0 :=
  have hC := C6_mismatch_reported_not_fatal 5 4 5 5 0 (Or.inl (by decide))
  ⟨Or.inl (by decide), hC.2.1, hC.2.2.2.2⟩

/-- C7. In part3's race demonstration, for every observed `unsafe_count` and
every `sequential_count`, the program reports both the observed and the
expected value, reports `Race condition detected` exactly when they differ
and `may not have manifested` exactly when they are equal, and ends with
exit status 0 in both cases. -/
theorem C7_race_reported_as_data (s a b u : Int) (t : ℚ) :
    (⟨"Unsafe count: %d even numbers\n", [.int u]⟩ : Printf)
      ∈ (part3_main_tail s a b u t).output ∧
    (⟨"Expected count: %d even numbers\n", [.int s]⟩ : Printf)
      ∈ (part3_main_tail s a b u t).output ∧
    ((⟨"✗ Race condition detected! Count is incorrect.\n", []⟩ : Printf)
      ∈ (part3_main_tail s a b u t).output ↔ u ≠ s) ∧
    ((⟨"⚠ Race condition may not have manifested in this run.\n", []⟩ : Printf)
      ∈ (part3_main_tail s a b u t).output ↔ u = s) ∧
    (part3_main_tail s a b u t).status = 0 := by
  refine ⟨?_, ?_, ?_, ?_, rfl⟩
  · simp [part3_main_tail, part3_race_demo]
  · simp [part3_main_tail, part3_race_demo]
  · have hv : (⟨"✗ Race condition detected! Count is incorrect.\n", []⟩ : Printf)
        ∉ part3_verify s a b := by
      unfold part3_verify
      split <;> simp
    have he : (⟨"✗ Race condition detected! Count is incorrect.\n", []⟩ : Printf)
        ∉ part3_explanation := by
      simp [part3_explanation]
    have hd : (⟨"✗ Race condition detected! Count is incorrect.\n", []⟩ : Printf)
        ∈ part3_race_demo s u t ↔ u ≠ s := by
      unfold part3_race_demo
      by_cases hu : u = s <;> simp [hu]
    simp only [part3_main_tail, List.mem_append, hv, he, hd, false_or]
  · have hv : (⟨"⚠ Race condition may not have manifested in this run.\n", []⟩ : Printf)
        ∉ part3_verify s a b := by
      unfold part3_verify
      split <;> simp
    have he : (⟨"⚠ Race condition may not have manifested in this run.\n", []⟩ : Printf)
        ∉ part3_explanation := by
      simp [part3_explanation]
    have hd : (⟨"⚠ Race condition may not have manifested in this run.\n", []⟩ : Printf)
        ∈ part3_race_demo s u t ↔ u = s := by
      unfold part3_race_demo
      by_cases hu : u = s <;> simp [hu]
    simp only [part3_main_tail, List.mem_append, hv, he, hd, false_or]

/-! ### C8: chunk sizes that are not positive -/

theorem run_static_conforming (chunk_size : Int) (elapsed : ℚ) :
    ∃ schedule report, run_static chunk_size elapsed = Outcome.ran schedule report ∧
      schedule.conforming = true := by
  by_cases h : chunk_size > 0
  · exact ⟨_, _, rfl, by simp [h, Schedule.conforming]⟩
  · exact ⟨_, _, rfl, by simp [h, Schedule.conforming]⟩

theorem run_dynamic_of_pos (chunk_size : Int) (elapsed : ℚ) (h : 0 < chunk_size) :
    run_dynamic chunk_size elapsed = Outcome.ran (Schedule.dynamic chunk_size)
      ⟨"Execution time (dynamic, %d): %.6f s\n", [.int chunk_size, .real elapsed]⟩ := by
  simp [run_dynamic, omp_loop, Schedule.conforming, h]

theorem run_guided_of_pos (chunk_size : Int) (elapsed : ℚ) (h : 0 < chunk_size) :
    run_guided chunk_size elapsed = Outcome.ran (Schedule.guided chunk_size)
      ⟨"Execution time (guided, %d): %.6f s\n", [.int chunk_size, .real elapsed]⟩ := by
  simp [run_guided, omp_loop, Schedule.conforming, h]

/-- C8, counterexample. With `chunk_size = -3`, `run_static` does not
reject: it falls back to the default static schedule, runs the loop and
reports chunk `0`. -/
theorem C8_chunk_not_rejected_counterexample :
    (-3 : Int) ≤ 0 ∧
    run_static (-3) 1 ≠ Outcome.config_error ∧
    run_static (-3) 1 = Outcome.ran Schedule.static_default
      ⟨"Execution time (static%s%d): %.6f s\n", [.str "", .int 0, .real 1]⟩ := by
  refine ⟨by decide, ?_, ?_⟩
  · simp [run_static]
  · simp [run_static]

/-- C8, amended. For every `chunk_size <= 0`, `run_static` does not reject:
it runs the loop under the default static schedule (`schedule(static)`
without a chunk) and reports chunk `0` in its timing line. Nothing is stated
about `run_dynamic` and `run_guided` with such a chunk size. -/
theorem C8_run_static_falls_back (chunk_size : Int) (elapsed : ℚ) (h : chunk_size ≤ 0) :
    run_static chunk_size elapsed = Outcome.ran Schedule.static_default
      ⟨"Execution time (static%s%d): %.6f s\n", [.str "", .int 0, .real elapsed]⟩ ∧
    run_static chunk_size elapsed ≠ Outcome.config_error := by
  have hn : ¬ chunk_size > 0 := not_lt.mpr h
  refine ⟨?_, ?_⟩
  · simp only [run_static, if_neg hn]
  · simp [run_static]

/-- C8 amended, at `chunk_size = 0`, the call `run_static(0)` of `main`. -/
theorem C8_run_static_falls_back_witness :
    (0 : Int) ≤ 0 ∧
    run_static 0 1 = Outcome.ran Schedule.static_default
      ⟨"Execution time (static%s%d): %.6f s\n", [.str "", .int 0, .real 1]⟩ :=
  ⟨le_refl 0, (C8_run_static_falls_back 0 1 (le_refl 0)).1⟩

/-! ### C9: `expected_sum` -/

theorem length_sixteen (l : List Int) (h : l.length = 16) :
    ∃ a0 a1 a2 a3 a4 a5 a6 a7 a8 a9 a10 a11 a12 a13 a14 a15 : Int,
      l = [a0, a1, a2, a3, a4, a5, a6, a7, a8, a9, a10, a11, a12, a13, a14, a15] := by
  rcases l with _ | ⟨a0, _ | ⟨a1, _ | ⟨a2, _ | ⟨a3, _ | ⟨a4, _ | ⟨a5, _ | ⟨a6, _ | ⟨a7, _ | ⟨a8, _ | ⟨a9, _ | ⟨a10, _ | ⟨a11, _ | ⟨a12, _ | ⟨a13, _ | ⟨a14, _ | ⟨a15, _ | ⟨b, t⟩⟩⟩⟩⟩⟩⟩⟩⟩⟩⟩⟩⟩⟩⟩⟩⟩
  all_goals first
    | exact ⟨_, _, _, _, _, _, _, _, _, _, _, _, _, _, _, _, rfl⟩
    | (simp at h)

theorem build_tests_cases (M : Int) (slots : List Int) (hM : 1 ≤ M) (hs : slots.length = 16) :
    ∃ st, build_tests slots M = some st ∧ st.tests.length = 16 ∧
      st.filled.length = st.nt ∧
      ((M = 1 ∧ st.filled = [1]) ∨
      (M = 2 ∧ st.filled = [1, 2]) ∨
      (M = 3 ∧ st.filled = [1, 2, 3]) ∨
      (M = 4 ∧ st.filled = [1, 2, 4]) ∨
      (5 ≤ M ∧ M ≤ 7 ∧ st.filled = [1, 2, 4, M]) ∨
      (M = 8 ∧ st.filled = [1, 2, 4, 8]) ∨
      (9 ≤ M ∧ M ≤ 15 ∧ st.filled = [1, 2, 4, 8, M]) ∨
      (M = 16 ∧ st.filled = [1, 2, 4, 8, 16]) ∨
      (17 ≤ M ∧ M ≤ 31 ∧ st.filled = [1, 2, 4, 8, 16, M]) ∨
      (M = 32 ∧ st.filled = [1, 2, 4, 8, 16, 32]) ∨
      (33 ≤ M ∧ st.filled = [1, 2, 4, 8, 16, 32, M])) := by
  obtain ⟨a0, a1, a2, a3, a4, a5, a6, a7, a8, a9, a10, a11, a12, a13, a14, a15, rfl⟩ :=
    length_sixteen slots hs
  have hcases : M = 1 ∨ M = 2 ∨ M = 3 ∨ M = 4 ∨ (5 ≤ M ∧ M ≤ 7) ∨ M = 8 ∨ (9 ≤ M ∧ M ≤ 15) ∨ M = 16 ∨ (17 ≤ M ∧ M ≤ 31) ∨ M = 32 ∨ 33 ≤ M := by omega
  rcases hcases with h | h | h | h | h | h | h | h | h | h | h
  · subst h
    simp [build_tests, candidates, add_candidate, contains, push_test, TestSet.filled,
      List.range_succ]
  · subst h
    simp [build_tests, candidates, add_candidate, contains, push_test, TestSet.filled,
      List.range_succ]
  · subst h
    simp [build_tests, candidates, add_candidate, contains, push_test, TestSet.filled,
      List.range_succ]
  · subst h
    simp [build_tests, candidates, add_candidate, contains, push_test, TestSet.filled,
      List.range_succ]
  · have l1 : (1 : Int) ≤ M := by omega
    have l2 : (2 : Int) ≤ M := by omega
    have l4 : (4 : Int) ≤ M := by omega
    have l8 : ¬ (8 : Int) ≤ M := by omega
    have l16 : ¬ (16 : Int) ≤ M := by omega
    have l32 : ¬ (32 : Int) ≤ M := by omega
    have e1 : ¬ (1 : Int) = M := by omega
    have e2 : ¬ (2 : Int) = M := by omega
    have e4 : ¬ (4 : Int) = M := by omega
    have e8 : ¬ (8 : Int) = M := by omega
    have e16 : ¬ (16 : Int) = M := by omega
    have e32 : ¬ (32 : Int) = M := by omega
    simp [build_tests, candidates, add_candidate, contains, push_test, TestSet.filled,
      List.range_succ, l1, l2, l4, l8, l16, l32, e1, e2, e4, e8, e16, e32, h]
  · subst h
    simp [build_tests, candidates, add_candidate, contains, push_test, TestSet.filled,
      List.range_succ]
  · have l1 : (1 : Int) ≤ M := by omega
    have l2 : (2 : Int) ≤ M := by omega
    have l4 : (4 : Int) ≤ M := by omega
    have l8 : (8 : Int) ≤ M := by omega
    have l16 : ¬ (16 : Int) ≤ M := by omega
    have l32 : ¬ (32 : Int) ≤ M := by omega
    have e1 : ¬ (1 : Int) = M := by omega
    have e2 : ¬ (2 : Int) = M := by omega
    have e4 : ¬ (4 : Int) = M := by omega
    have e8 : ¬ (8 : Int) = M := by omega
    have e16 : ¬ (16 : Int) = M := by omega
    have e32 : ¬ (32 : Int) = M := by omega
    simp [build_tests, candidates, add_candidate, contains, push_test, TestSet.filled,
      List.range_succ, l1, l2, l4, l8, l16, l32, e1, e2, e4, e8, e16, e32, h]
  · subst h
    simp [build_tests, candidates, add_candidate, contains, push_test, TestSet.filled,
      List.range_succ]
  · have l1 : (1 : Int) ≤ M := by omega
    have l2 : (2 : Int) ≤ M := by omega
    have l4 : (4 : Int) ≤ M := by omega
    have l8 : (8 : Int) ≤ M := by omega
    have l16 : (16 : Int) ≤ M := by omega
    have l32 : ¬ (32 : Int) ≤ M := by omega
    have e1 : ¬ (1 : Int) = M := by omega
    have e2 : ¬ (2 : Int) = M := by omega
    have e4 : ¬ (4 : Int) = M := by omega
    have e8 : ¬ (8 : Int) = M := by omega
    have e16 : ¬ (16 : Int) = M := by omega
    have e32 : ¬ (32 : Int) = M := by omega
    simp [build_tests, candidates, add_candidate, contains, push_test, TestSet.filled,
      List.range_succ, l1, l2, l4, l8, l16, l32, e1, e2, e4, e8, e16, e32, h]
  · subst h
    simp [build_tests, candidates, add_candidate, contains, push_test, TestSet.filled,
      List.range_succ]
  · have l1 : (1 : Int) ≤ M := by omega
    have l2 : (2 : Int) ≤ M := by omega
    have l4 : (4 : Int) ≤ M := by omega
    have l8 : (8 : Int) ≤ M := by omega
    have l16 : (16 : Int) ≤ M := by omega
    have l32 : (32 : Int) ≤ M := by omega
    have e1 : ¬ (1 : Int) = M := by omega
    have e2 : ¬ (2 : Int) = M := by omega
    have e4 : ¬ (4 : Int) = M := by omega
    have e8 : ¬ (8 : Int) = M := by omega
    have e16 : ¬ (16 : Int) = M := by omega
    have e32 : ¬ (32 : Int) = M := by omega
    simp [build_tests, candidates, add_candidate, contains, push_test, TestSet.filled,
      List.range_succ, l1, l2, l4, l8, l16, l32, e1, e2, e4, e8, e16, e32, h]

/-- C10. For every maximum thread count `M >= 1`, whatever the uninitialised
array `tests` holds, the list of thread counts that part4's `main` builds
is exactly the elements of `{1,2,4,8,16,32}` that are `<= M`, in increasing
order, followed by `M` when `M` is not one of them: the list is strictly
increasing (so it has no duplicate), starts with `1`, ends with `M`, and its
length `nt` satisfies `1 <= nt <= 7`, so no store into the 16-slot array
falls outside it and the loops up to `nt` stay inside the 16-slot arrays. -/
theorem C10_thread_counts (M : Int) (slots : List Int) (hM : 1 ≤ M)
    (hs : slots.length = 16) :
    ∃ st, build_tests slots M = some st ∧
      st.filled = candidates.filter (fun c => decide (c ≤ M))
        ++ (if M ∈ candidates then [] else [M]) ∧
      st.filled.Pairwise (fun a b => a < b) ∧
      st.filled.Nodup ∧
      st.filled.head? = some 1 ∧
      st.filled.getLast? = some M ∧
      st.filled.length = st.nt ∧
      1 ≤ st.nt ∧ st.nt ≤ 7 ∧ st.nt ≤ st.tests.length ∧ st.tests.length = 16 := by
  obtain ⟨st, hb, hlen, hfl, hc⟩ := build_tests_cases M slots hM hs
  have hnt := hfl
  rcases hc with h | h | h | h | h | h | h | h | h | h | h
  · obtain ⟨hm, hf⟩ := h
    subst hm
    rw [hf] at hnt
    refine ⟨st, hb, ?_, ?_, ?_, ?_, ?_, hfl, ?_, ?_, ?_, hlen⟩
    all_goals first
      | (rw [hf]; decide)
      | (simp at hnt; omega)
  · obtain ⟨hm, hf⟩ := h
    subst hm
    rw [hf] at hnt
    refine ⟨st, hb, ?_, ?_, ?_, ?_, ?_, hfl, ?_, ?_, ?_, hlen⟩
    all_goals first
      | (rw [hf]; decide)
      | (simp at hnt; omega)
  · obtain ⟨hm, hf⟩ := h
    subst hm
    rw [hf] at hnt
    refine ⟨st, hb, ?_, ?_, ?_, ?_, ?_, hfl, ?_, ?_, ?_, hlen⟩
    all_goals first
      | (rw [hf]; decide)
      | (simp at hnt; omega)
  · obtain ⟨hm, hf⟩ := h
    subst hm
    rw [hf] at hnt
    refine ⟨st, hb, ?_, ?_, ?_, ?_, ?_, hfl, ?_, ?_, ?_, hlen⟩
    all_goals first
      | (rw [hf]; decide)
      | (simp at hnt; omega)
  · obtain ⟨hlo, hhi, hf⟩ := h
    have l1 : (1 : Int) ≤ M := by omega
    have l2 : (2 : Int) ≤ M := by omega
    have l4 : (4 : Int) ≤ M := by omega
    have l8 : ¬ (8 : Int) ≤ M := by omega
    have l16 : ¬ (16 : Int) ≤ M := by omega
    have l32 : ¬ (32 : Int) ≤ M := by omega
    have f1 : ¬ M = 1 := by omega
    have f2 : ¬ M = 2 := by omega
    have f4 : ¬ M = 4 := by omega
    have f8 : ¬ M = 8 := by omega
    have f16 : ¬ M = 16 := by omega
    have f32 : ¬ M = 32 := by omega
    rw [hf] at hnt
    refine ⟨st, hb, ?_, ?_, ?_, ?_, ?_, hfl, ?_, ?_, ?_, hlen⟩
    all_goals first
      | (simp at hnt; omega)
      | (rw [hf]
         simp [candidates, l1, l2, l4, l8, l16, l32, f1, f2, f4, f8, f16, f32]
         omega)
      | (rw [hf]
         simp [candidates, l1, l2, l4, l8, l16, l32, f1, f2, f4, f8, f16, f32])
  · obtain ⟨hm, hf⟩ := h
    subst hm
    rw [hf] at hnt
    refine ⟨st, hb, ?_, ?_, ?_, ?_, ?_, hfl, ?_, ?_, ?_, hlen⟩
    all_goals first
      | (rw [hf]; decide)
      | (simp at hnt; omega)
  · obtain ⟨hlo, hhi, hf⟩ := h
    have l1 : (1 : Int) ≤ M := by omega
    have l2 : (2 : Int) ≤ M := by omega
    have l4 : (4 : Int) ≤ M := by omega
    have l8 : (8 : Int) ≤ M := by omega
    have l16 : ¬ (16 : Int) ≤ M := by omega
    have l32 : ¬ (32 : Int) ≤ M := by omega
    have f1 : ¬ M = 1 := by omega
    have f2 : ¬ M = 2 := by omega
    have f4 : ¬ M = 4 := by omega
    have f8 : ¬ M = 8 := by omega
    have f16 : ¬ M = 16 := by omega
    have f32 : ¬ M = 32 := by omega
    rw [hf] at hnt
    refine ⟨st, hb, ?_, ?_, ?_, ?_, ?_, hfl, ?_, ?_, ?_, hlen⟩
    all_goals first
      | (simp at hnt; omega)
      | (rw [hf]
         simp [candidates, l1, l2, l4, l8, l16, l32, f1, f2, f4, f8, f16, f32]
         omega)
      | (rw [hf]
         simp [candidates, l1, l2, l4, l8, l16, l32, f1, f2, f4, f8, f16, f32])
  · obtain ⟨hm, hf⟩ := h
    subst hm
    rw [hf] at hnt
    refine ⟨st, hb, ?_, ?_, ?_, ?_, ?_, hfl, ?_, ?_, ?_, hlen⟩
    all_goals first
      | (rw [hf]; decide)
      | (simp at hnt; omega)
  · obtain ⟨hlo, hhi, hf⟩ := h
    have l1 : (1 : Int) ≤ M := by omega
    have l2 : (2 : Int) ≤ M := by omega
    have l4 : (4 : Int) ≤ M := by omega
    have l8 : (8 : Int) ≤ M := by omega
    have l16 : (16 : Int) ≤ M := by omega
    have l32 : ¬ (32 : Int) ≤ M := by omega
    have f1 : ¬ M = 1 := by omega
    have f2 : ¬ M = 2 := by omega
    have f4 : ¬ M = 4 := by omega
    have f8 : ¬ M = 8 := by omega
    have f16 : ¬ M = 16 := by omega
    have f32 : ¬ M = 32 := by omega
    rw [hf] at hnt
    refine ⟨st, hb, ?_, ?_, ?_, ?_, ?_, hfl, ?_, ?_, ?_, hlen⟩
    all_goals first
      | (simp at hnt; omega)
      | (rw [hf]
         simp [candidates, l1, l2, l4, l8, l16, l32, f1, f2, f4, f8, f16, f32]
         omega)
      | (rw [hf]
         simp [candidates, l1, l2, l4, l8, l16, l32, f1, f2, f4, f8, f16, f32])
  · obtain ⟨hm, hf⟩ := h
    subst hm
    rw [hf] at hnt
    refine ⟨st, hb, ?_, ?_, ?_, ?_, ?_, hfl, ?_, ?_, ?_, hlen⟩
    all_goals first
      | (rw [hf]; decide)
      | (simp at hnt; omega)
  · obtain ⟨hlo, hf⟩ := h
    have l1 : (1 : Int) ≤ M := by omega
    have l2 : (2 : Int) ≤ M := by omega
    have l4 : (4 : Int) ≤ M := by omega
    have l8 : (8 : Int) ≤ M := by omega
    have l16 : (16 : Int) ≤ M := by omega
    have l32 : (32 : Int) ≤ M := by omega
    have f1 : ¬ M = 1 := by omega
    have f2 : ¬ M = 2 := by omega
    have f4 : ¬ M = 4 := by omega
    have f8 : ¬ M = 8 := by omega
    have f16 : ¬ M = 16 := by omega
    have f32 : ¬ M = 32 := by omega
    rw [hf] at hnt
    refine ⟨st, hb, ?_, ?_, ?_, ?_, ?_, hfl, ?_, ?_, ?_, hlen⟩
    all_goals first
      | (simp at hnt; omega)
      | (rw [hf]
         simp [candidates, l1, l2, l4, l8, l16, l32, f1, f2, f4, f8, f16, f32]
         omega)
      | (rw [hf]
         simp [candidates, l1, l2, l4, l8, l16, l32, f1, f2, f4, f8, f16, f32])

/-- C10 at `M = 11`, the array `tests` holding sixteen times `7`. -/
theorem C10_thread_counts_witness :
    ∃ st, build_tests (List.replicate 16 7) 11 = some st ∧
      st.filled = [1, 2, 4, 8, 11] ∧ st.nt = 5 := by
  obtain ⟨st, hb, hf, _, _, _, _, hl, _⟩ :=
    C10_thread_counts 11 (List.replicate 16 7) (by decide) (by decide)
  exact ⟨st, hb, by rw [hf]; decide, by rw [← hl, hf]; decide⟩

/-! ### C11: the amount of work of an iteration -/

theorem round_half_even_bounds (y : ℚ) :
    ⌊y⌋ ≤ round_half_even y ∧ round_half_even y ≤ ⌊y⌋ + 1 := by
  unfold round_half_even
  simp only
  split_ifs <;> omega

theorem round_half_even_int (z : Int) : round_half_even (z : ℚ) = z := by
  unfold round_half_even
  simp

theorem round_double_grid (x : ℚ) (hx : 0 < x) (E : ℕ) (hE : E ≤ 52)
    (hlt : x < 2 ^ (E + 1)) :
    ∃ k : ℕ, 52 ≤ k + E ∧ round_double x = (round_half_even (x * 2 ^ k) : ℚ) / 2 ^ k := by
  have hlog : Int.log 2 x < ((E + 1 : ℕ) : ℤ) := by
    rw [← Int.lt_zpow_iff_log_lt (by norm_num) hx]
    rw [zpow_natCast]
    exact_mod_cast hlt
  have he : max (Int.log 2 x) (-1022) ≤ (E : ℤ) := by
    apply max_le
    · push_cast at hlog
      omega
    · omega
  refine ⟨(52 - max (Int.log 2 x) (-1022)).toNat, ?_, ?_⟩
  · omega
  · have hk : max (Int.log 2 x) (-1022) - 52
        = -(((52 - max (Int.log 2 x) (-1022)).toNat : ℕ) : ℤ) := by
      omega
    unfold round_double
    rw [if_neg (ne_of_gt hx), abs_of_pos hx]
    simp only
    rw [hk, zpow_neg, zpow_natCast]
    rw [div_inv_eq_mul, div_eq_mul_inv]

theorem round_double_int (a : Int) (h0 : 0 ≤ a) (h : a < 2 ^ 53) :
    round_double (a : ℚ) = a := by
  rcases eq_or_lt_of_le h0 with hz | hpos
  · rw [← hz]
    simp [round_double]
  · have hx : (0 : ℚ) < a := by exact_mod_cast hpos
    have hlt : (a : ℚ) < 2 ^ (52 + 1) := by exact_mod_cast h
    obtain ⟨k, _, hk⟩ := round_double_grid (a : ℚ) hx 52 (le_refl _) hlt
    have hcast : (a : ℚ) * 2 ^ k = ((a * 2 ^ k : Int) : ℚ) := by push_cast; rfl
    rw [hk, hcast, round_half_even_int]
    push_cast
    field_simp

theorem round_double_div_floor (a : Int) (h0 : 0 ≤ a) (h : a < 40960000) :
    ⌊round_double ((a : ℚ) / 2500)⌋ = a / 2500 ∧ 0 ≤ round_double ((a : ℚ) / 2500) := by
  rcases eq_or_lt_of_le h0 with hz | hpos
  · rw [← hz]
    simp [round_double]
  · have hx : (0 : ℚ) < (a : ℚ) / 2500 := by
      have : (0 : ℚ) < a := by exact_mod_cast hpos
      positivity
    have hlt : (a : ℚ) / 2500 < 2 ^ (13 + 1) := by
      have : (a : ℚ) < 40960000 := by exact_mod_cast h
      rw [div_lt_iff₀ (by norm_num)]
      norm_num
      linarith
    obtain ⟨k, hk39, hk⟩ := round_double_grid ((a : ℚ) / 2500) hx 13 (by norm_num) hlt
    have hP : (2 : ℚ) ^ 39 ≤ 2 ^ k := by
      apply pow_le_pow_right₀ (by norm_num)
      omega
    have hP0 : (0 : ℚ) < 2 ^ k := by positivity
    have hb := round_half_even_bounds ((a : ℚ) / 2500 * 2 ^ k)
    have hn1 : ((a / 2500 : Int) : ℚ) * 2500 ≤ a := by
      have : (a / 2500) * 2500 ≤ a := by omega
      exact_mod_cast this
    have hn2 : (a : ℚ) ≤ ((a / 2500 : Int) : ℚ) * 2500 + 2499 := by
      have : a ≤ (a / 2500) * 2500 + 2499 := by omega
      exact_mod_cast this
    have hlow : ((a / 2500 : Int) : ℚ) * 2 ^ k ≤ (a : ℚ) / 2500 * 2 ^ k := by
      apply mul_le_mul_of_nonneg_right _ (le_of_lt hP0)
      rw [le_div_iff₀ (by norm_num)]
      exact hn1
    have hupp : (a : ℚ) / 2500 * 2 ^ k < (((a / 2500 : Int) : ℚ) + 1) * 2 ^ k - 1 := by
      have h1 : (a : ℚ) / 2500 ≤ ((a / 2500 : Int) : ℚ) + 2499 / 2500 := by
        rw [div_le_iff₀ (by norm_num)]
        linarith
      have h2 : (a : ℚ) / 2500 * 2 ^ k
          ≤ (((a / 2500 : Int) : ℚ) + 2499 / 2500) * 2 ^ k :=
        mul_le_mul_of_nonneg_right h1 (le_of_lt hP0)
      have h3 : (2500 : ℚ) < 2 ^ k := lt_of_lt_of_le (by norm_num) hP
      nlinarith
    have hfl : ((a / 2500 : Int) : ℚ) * 2 ^ k ≤ (⌊(a : ℚ) / 2500 * 2 ^ k⌋ : ℚ) := by
      have hle : (a / 2500) * 2 ^ k ≤ ⌊(a : ℚ) / 2500 * 2 ^ k⌋ :=
        Int.le_floor.mpr (by push_cast; exact hlow)
      have hq := (Int.cast_le (R := ℚ)).mpr hle
      push_cast at hq
      exact hq
    have hfu : (⌊(a : ℚ) / 2500 * 2 ^ k⌋ : ℚ) ≤ (a : ℚ) / 2500 * 2 ^ k := Int.floor_le _
    have hm1 : (⌊(a : ℚ) / 2500 * 2 ^ k⌋ : ℚ)
        ≤ (round_half_even ((a : ℚ) / 2500 * 2 ^ k) : ℚ) := by exact_mod_cast hb.1
    have hm2 : (round_half_even ((a : ℚ) / 2500 * 2 ^ k) : ℚ)
        ≤ (⌊(a : ℚ) / 2500 * 2 ^ k⌋ : ℚ) + 1 := by exact_mod_cast hb.2
    have hd1 : ((a / 2500 : Int) : ℚ)
        ≤ (round_half_even ((a : ℚ) / 2500 * 2 ^ k) : ℚ) / 2 ^ k := by
      rw [le_div_iff₀ hP0]
      linarith
    have hd2 : (round_half_even ((a : ℚ) / 2500 * 2 ^ k) : ℚ) / 2 ^ k
        < ((a / 2500 : Int) : ℚ) + 1 := by
      rw [div_lt_iff₀ hP0]
      linarith
    rw [hk]
    refine ⟨Int.floor_eq_iff.mpr ⟨hd1, hd2⟩, ?_⟩
    have hn0 : (0 : ℚ) ≤ ((a / 2500 : Int) : ℚ) := by
      have : 0 ≤ a / 2500 := by omega
      exact_mod_cast this
    linarith

theorem work_amount_eq (i : Int) (h0 : 0 ≤ i) (h : i < 6400) :
    work_amount i = some (40 + i * i / 2500) := by
  have hsq0 : 0 ≤ i * i := mul_nonneg h0 h0
  have hsq1 : i * i < 40960000 := by nlinarith
  have hi : round_double (i : ℚ) = i :=
    round_double_int i h0 (lt_trans h (by norm_num))
  have hd : round_double ((2500 : Int) : ℚ) = (2500 : Int) :=
    round_double_int 2500 (by norm_num) (by norm_num)
  have hp : round_double ((i : ℚ) * (i : ℚ)) = ((i * i : Int) : ℚ) := by
    have hc : (i : ℚ) * (i : ℚ) = ((i * i : Int) : ℚ) := by push_cast; rfl
    rw [hc]
    exact round_double_int (i * i) hsq0 (lt_trans hsq1 (by norm_num))
  have hq := round_double_div_floor (i * i) hsq0 hsq1
  have hcast : (((2500 : Int) : ℚ)) = 2500 := by norm_num
  unfold work_amount double_div double_mul int_to_double WORK_DIVISOR BASE_WORK
  rw [hi, one_mul, hi, hp, hd, hcast]
  have hto : double_to_int (round_double (((i * i : Int) : ℚ) / 2500))
      = some (i * i / 2500) := by
    unfold double_to_int
    simp only
    rw [if_pos hq.2, hq.1, if_pos]
    constructor <;> omega
  rw [hto]
  simp only
  unfold add32_checked
  rw [if_pos]
  constructor <;> omega

/-- C11. For every iteration `i` with `0 <= i < N` (`N = 5000`), the number
of inner-loop steps of `simulate_work` is
`work_amount(i) = 40 + floor(i*i / 2500)`, computed without leaving the
`int` range (the product and the quotient are exact enough in `double` for
the cast to give the floor), and it is non-decreasing in `i`: for all
`0 <= i <= j < N`, `work_amount(i) <= work_amount(j)`, ranging from `40` at
`i = 0` to `10036` at `i = 4999`. -/
theorem C11_work_amount_monotone (i j : Nat) (hij : i ≤ j) (hj : j < PART2_N) :
    work_amount i = some (40 + (i : Int) * i / 2500) ∧
    work_amount j = some (40 + (j : Int) * j / 2500) ∧
    simulate_work_steps i = some (40 + i * i / 2500) ∧
    40 + (i : Int) * i / 2500 ≤ 40 + (j : Int) * j / 2500 ∧
    (40 : Int) ≤ 40 + (i : Int) * i / 2500 ∧
    40 + (j : Int) * j / 2500 ≤ 10036 ∧
    work_amount 0 = some 40 ∧ work_amount 4999 = some 10036 := by
  unfold PART2_N at hj
  have hi0 : (0 : Int) ≤ i := Int.ofNat_nonneg i
  have hj0 : (0 : Int) ≤ j := Int.ofNat_nonneg j
  have hij1 : (i : Int) ≤ j := by exact_mod_cast hij
  have hj1 : (j : Int) ≤ 4999 := by
    have : j ≤ 4999 := by omega
    exact_mod_cast this
  have hwi := work_amount_eq i hi0 (by omega)
  have hwj := work_amount_eq j hj0 (by omega)
  have hsq : (i : Int) * i ≤ (j : Int) * j := mul_le_mul hij1 hij1 hi0 hj0
  have hsqi : (0 : Int) ≤ (i : Int) * i := mul_nonneg hi0 hi0
  have hsqj : (j : Int) * j ≤ 24990001 := by nlinarith
  have hmono : (i : Int) * i / 2500 ≤ (j : Int) * j / 2500 :=
    Int.ediv_le_ediv (by norm_num) hsq
  refine ⟨hwi, hwj, ?_, by omega, by omega, by omega, ?_, ?_⟩
  · unfold simulate_work_steps
    rw [hwi]
    have hc : (40 + (i : Int) * i / 2500) = ((40 + i * i / 2500 : Nat) : Int) := by
      push_cast
      rfl
    simp only [Option.map_some', hc, Int.toNat_natCast]
  · exact work_amount_eq 0 (le_refl 0) (by norm_num)
  · exact work_amount_eq 4999 (by norm_num) (by norm_num)

/-- C11 at `i = 100` and `j = 4999`. -/
theorem C11_work_amount_monotone_witness :
    100 ≤ 4999 ∧ 4999 < PART2_N ∧
    work_amount 100 = some 44 ∧ work_amount 4999 = some 10036 ∧
    simulate_work_steps 100 = some 44 :=
  have hC := C11_work_amount_monotone 100 4999 (by decide) (by decide)
  ⟨by decide, by decide, hC.1, hC.2.1, hC.2.2.1⟩

end PCLab01
